import Mathlib

/-!
# nvidia_smi_exporter: the sanitizer, the registry and the collector loop

A shallow embedding of `nvidia_smi_exporter.go`.

* Strings are Lean strings; `float64` values are the exact rationals they denote
  (only finite values arise in this program).
* `log.Fatal` is the `error` branch of `Except`: the process ends there.
* The standard-library calls are modelled by what they compute on the inputs this
  program gives them: `regexp.ReplaceAllString` for the pattern `[^0-9.]`,
  `strconv.ParseFloat(_, 64)` on strings of digits and dots (scan of `readFloat`,
  then correct rounding to binary64 with `ErrRange` on overflow), `strconv.Itoa`
  on slice indices, and gauge vectors as association lists of children.
* What the operating system and `xml.Unmarshal` hand to one poll cycle is an
  explicit input (`Cycle`).
-/

set_option autoImplicit false

namespace NvidiaSmiExporter

/-! ## Constants -/

/-- Line 19: `const LISTEN_ADDRESS = ":9202"`. -/
def LISTEN_ADDRESS : String := ":9202"

/-- Line 20: `const NVIDIA_SMI_PATH = "/usr/bin/nvidia-smi"`. -/
def NVIDIA_SMI_PATH : String := "/usr/bin/nvidia-smi"

/-! ## float64 and strconv.ParseFloat -/

/-- A finite `float64`, as the rational number it denotes. -/
abbrev Float64 := ℚ

/-- The two errors of `strconv`: `ErrSyntax` and `ErrRange`. -/
inductive NumError
  | ErrSyntax
  | ErrRange
deriving DecidableEq, Repr

deriving instance DecidableEq for Except

/-- One character against the pattern `[^0-9.]` of line 203. -/
def matchNonNumeric (c : Char) : Bool :=
  !((decide ('0' ≤ c) && decide (c ≤ '9')) || c == '.')

/-- Line 204: `r.ReplaceAllString(value, "")` for `r = [^0-9.]`: every match is one
character and is replaced by nothing. -/
def ReplaceAllString : List Char → List Char
  | [] => []
  | c :: cs => if matchNonNumeric c then ReplaceAllString cs else c :: ReplaceAllString cs

/-- The local variables of the scanning loop of `strconv.readFloat` (base 10).
`mantissa` is kept exact: Go keeps 19 digits and re-reads the whole string on its
slow path when digits were dropped, which gives the same correctly rounded result. -/
structure FloatScan where
  mantissa : Nat
  nd : Nat
  dp : Int
  sawdot : Bool
  sawdigits : Bool
deriving DecidableEq, Repr

/-- The digit loop of `strconv.readFloat`; returns the variables at loop exit and the
unread rest of the string. A second `.` (or any other character) ends the loop. -/
def readFloatLoop (st : FloatScan) : List Char → FloatScan × List Char
  | [] => (st, [])
  | c :: cs =>
    if c = '.' then
      if st.sawdot then (st, c :: cs)
      else readFloatLoop { st with sawdot := true, dp := st.nd } cs
    else if '0' ≤ c ∧ c ≤ '9' then
      if c = '0' ∧ st.nd = 0 then
        readFloatLoop { st with sawdigits := true, dp := st.dp - 1 } cs
      else
        readFloatLoop { st with sawdigits := true, nd := st.nd + 1,
                                mantissa := st.mantissa * 10 + (c.toNat - '0'.toNat) } cs
    else (st, c :: cs)

/-- Nearest integer to `n / d`, ties to even. -/
def roundHalfEven (n d : Nat) : Nat :=
  let q := n / d
  let r := n % d
  if 2 * r < d then q
  else if d < 2 * r then q + 1
  else if q % 2 = 0 then q else q + 1

/-- The number of binary digits of `n`, by repeated halving (`fuel` bounds the
number of halvings; `n` itself is always enough). -/
def bitLen : Nat → Nat → Nat
  | 0, _ => 0
  | fuel + 1, n => if n = 0 then 0 else bitLen fuel (n / 2) + 1

/-- The position of the highest set bit of `n`. -/
def log2 (n : Nat) : Nat := bitLen n n - 1

/-- The binary exponent of `n / d`: the `e` with `2 ^ e ≤ n / d < 2 ^ (e + 1)`. -/
def floorLog2 (n d : Nat) : Int :=
  let a := log2 n
  let b := log2 d
  if d * 2 ^ a ≤ n * 2 ^ b then (a : Int) - b else (a : Int) - b - 1

/-- The binary64 value nearest to `n / d` (ties to even, subnormals included), or
`none` when the rounded value is beyond the largest finite `float64`. -/
def roundFloat64 (n d : Nat) : Option Float64 :=
  if n = 0 then some 0
  else
    let e := max (floorLog2 n d) (-1022)
    let sh : Int := e - 52
    let m := if 0 ≤ sh then roundHalfEven n (d * 2 ^ sh.toNat)
             else roundHalfEven (n * 2 ^ (-sh).toNat) d
    if 0 ≤ sh ∧ 2 ^ 1024 ≤ m * 2 ^ sh.toNat then none
    else some (mkRat ((m * 2 ^ sh.toNat : Nat) : Int) (2 ^ (-sh).toNat))

/-- Line 208: `strconv.ParseFloat(s, 64)` on a string of digits and dots, the only
strings `filterNumber` passes to it (see `ReplaceAllString_numeric`). `ErrSyntax`
when no digit was read or when the scan stopped before the end of the string,
`ErrRange` on overflow, else the correctly rounded value of
`mantissa * 10 ^ (dp - nd)`. -/
def ParseFloat (s : String) : Except NumError Float64 :=
  let (st, rest) := readFloatLoop ⟨0, 0, 0, false, false⟩ s.data
  if !st.sawdigits then .error .ErrSyntax
  else
    let dp : Int := if st.sawdot then st.dp else st.nd
    if rest ≠ [] then .error .ErrSyntax
    else
      match roundFloat64 st.mantissa (10 ^ ((st.nd : Int) - dp).toNat) with
      | none => .error .ErrRange
      | some f => .ok f

/-- Lines 202-213. The `error` branch is `log.Fatal(err)`. -/
def filterNumber (value : String) : Except NumError Float64 :=
  let value := String.mk (ReplaceAllString value.data)
  if value = "" then .ok (-1)
  else
    match ParseFloat value with
    | .error err => .error err
    | .ok retval => .ok retval

/-! ## strconv.Itoa -/

/-- The digit loop of `strconv.formatBits` in base 10: digits are produced from the
least significant one and written in front of what is already there. -/
def formatBits : Nat → Nat → List Char → List Char
  | 0, _, acc => acc
  | fuel + 1, u, acc =>
    let acc := Char.ofNat ('0'.toNat + u % 10) :: acc
    if u / 10 = 0 then acc else formatBits fuel (u / 10) acc

/-- Line 246: `strconv.Itoa(i)` for a slice index `i`. -/
def Itoa (i : Nat) : String := String.mk (formatBits (i + 1) i [])

/-! ## The decoded document -/

/-- Lines 166-168. -/
structure PCI where
  PCIBus : String
deriving DecidableEq, Repr

/-- Lines 169-173. -/
structure FbMemoryUsage where
  Total : String
  Used : String
  Free : String
deriving DecidableEq, Repr

/-- Lines 174-177. -/
structure Utilization where
  GPUUtil : String
  MemoryUtil : String
deriving DecidableEq, Repr

/-- Lines 178-182. -/
structure Temperature where
  GPUTemp : String
  GPUTempMaxThreshold : String
  GPUTempSlowThreshold : String
deriving DecidableEq, Repr

/-- Lines 183-186. -/
structure PowerReadings where
  PowerDraw : String
  PowerLimit : String
deriving DecidableEq, Repr

/-- Lines 187-192 and 193-198 (`clocks` and `max_clocks` have the same shape). -/
structure Clocks where
  GraphicsClock : String
  SmClock : String
  MemClock : String
  VideoClock : String
deriving DecidableEq, Repr

/-- Lines 161-199: one element of `GPUs`. -/
structure GPU where
  ProductName : String
  ProductBrand : String
  UUID : String
  FanSpeed : String
  PCI : NvidiaSmiExporter.PCI
  FbMemoryUsage : NvidiaSmiExporter.FbMemoryUsage
  Utilization : NvidiaSmiExporter.Utilization
  Temperature : NvidiaSmiExporter.Temperature
  PowerReadings : NvidiaSmiExporter.PowerReadings
  Clocks : NvidiaSmiExporter.Clocks
  MaxClocks : NvidiaSmiExporter.Clocks
deriving DecidableEq, Repr

/-- Lines 158-200. -/
structure NvidiaSmiLog where
  DriverVersion : String
  AttachedGPUs : String
  GPUs : List GPU
deriving DecidableEq, Repr

/-- The zero value of the element struct: every field the empty string. -/
def GPU.zero : GPU :=
  ⟨"", "", "", "", ⟨""⟩, ⟨"", "", ""⟩, ⟨"", ""⟩, ⟨"", "", ""⟩, ⟨"", ""⟩,
    ⟨"", "", "", ""⟩, ⟨"", "", "", ""⟩⟩

/-- Line 239: `var xmlData NvidiaSmiLog`, the zero value. -/
def NvidiaSmiLog.zero : NvidiaSmiLog := ⟨"", "", []⟩

/-! ## The registry -/

/-- The gauge vectors of lines 26-155. -/
inductive GaugeVec
  | nvidia_driver_info
  | nvidia_fanspeed
  | nvidia_info
  | nvidia_memory_total
  | nvidia_memory_used
  | nvidia_memory_free
  | nvidia_utilization_gpu
  | nvidia_utilization_memory
  | nvidia_temperatures
  | nvidia_temperatures_max
  | nvidia_temperatures_slow
  | nvidia_power_usage
  | nvidia_power_limit
  | nvidia_clock_graphics
  | nvidia_clock_graphics_max
  | nvidia_clock_sm
  | nvidia_clock_sm_max
  | nvidia_clock_mem
  | nvidia_clock_mem_max
  | nvidia_clock_video
  | nvidia_clock_video_max
deriving DecidableEq, Repr

/-- A child of a gauge vector: the vector and the label values, in the order of the
label names the vector was declared with. -/
abbrev Key := GaugeVec × List String

/-- The metrics of the process: the plain gauge `nvidia_device_count` (lines 32-35,
registered with value 0) and the children of the gauge vectors, in creation order. -/
structure Registry where
  nvidia_device_count : Float64
  children : List (Key × Float64)
deriving DecidableEq

/-- The registry at process start: no vector has a child yet. -/
def Registry.init : Registry := ⟨0, []⟩

/-- The label combinations present. -/
def Registry.keys (reg : Registry) : List Key := reg.children.map Prod.fst

/-- The value of the first child with label combination `k`, if there is one. -/
def lookupKey (k : Key) : List (Key × Float64) → Option Float64
  | [] => none
  | e :: es => if e.1 = k then some e.2 else lookupKey k es

/-- The value a scrape reads for a child, if the child exists. -/
def Registry.find (reg : Registry) (k : Key) : Option Float64 :=
  lookupKey k reg.children

/-- The call `vec.With(labels)`: the child for these label values, created with value 0
when it does not exist yet. -/
def Registry.With (reg : Registry) (k : Key) : Registry :=
  if k ∈ reg.keys then reg else { reg with children := reg.children ++ [(k, 0)] }

/-- The call `child.Set(v)`. -/
def Registry.Set (reg : Registry) (k : Key) (v : Float64) : Registry :=
  { reg with children := reg.children.map (fun e => if e.1 = k then (e.1, v) else e) }

/-! ## One poll cycle -/

/-- A statement of the output block, lines 243-266, with its argument evaluated. -/
inductive Stmt
  /-- The statement `vec.With(prometheus.Labels{...}).Set(value)`. -/
  | vecSet (vec : GaugeVec) (labels : List String) (value : Except NumError Float64)
  /-- The statement `nvidia_device_count.Set(value)`. -/
  | countSet (value : Except NumError Float64)
deriving DecidableEq

/-- Run one statement; a fatal argument ends the process. -/
def Stmt.run (reg : Registry) : Stmt → Except NumError Registry
  | .vecSet vec labels value =>
    match value with
    | .error err => .error err
    | .ok v => .ok ((reg.With (vec, labels)).Set (vec, labels) v)
  | .countSet value =>
    match value with
    | .error err => .error err
    | .ok v => .ok { reg with nvidia_device_count := v }

/-- Run statements in order, stopping at the first fatal one. -/
def runStmts (reg : Registry) : List Stmt → Except NumError Registry
  | [] => .ok reg
  | s :: ss =>
    match s.run reg with
    | .error err => .error err
    | .ok reg1 => runStmts reg1 ss

/-- Lines 246-266: the body of the loop for the element `GPU` at index `i`. -/
def gpuStmts (i : Nat) (GPU : GPU) : List Stmt :=
  let idx := Itoa i
  [ .vecSet .nvidia_fanspeed [idx] (filterNumber GPU.FanSpeed),
    .vecSet .nvidia_info [idx, GPU.UUID, GPU.ProductName] (.ok 1),
    .vecSet .nvidia_memory_total [idx] (filterNumber GPU.FbMemoryUsage.Total),
    .vecSet .nvidia_memory_used [idx] (filterNumber GPU.FbMemoryUsage.Used),
    .vecSet .nvidia_memory_free [idx] (filterNumber GPU.FbMemoryUsage.Free),
    .vecSet .nvidia_utilization_gpu [idx] (filterNumber GPU.Utilization.GPUUtil),
    .vecSet .nvidia_utilization_memory [idx] (filterNumber GPU.Utilization.MemoryUtil),
    .vecSet .nvidia_temperatures [idx] (filterNumber GPU.Temperature.GPUTemp),
    .vecSet .nvidia_temperatures_max [idx] (filterNumber GPU.Temperature.GPUTempMaxThreshold),
    .vecSet .nvidia_temperatures_slow [idx] (filterNumber GPU.Temperature.GPUTempSlowThreshold),
    .vecSet .nvidia_power_usage [idx] (filterNumber GPU.PowerReadings.PowerDraw),
    .vecSet .nvidia_power_limit [idx] (filterNumber GPU.PowerReadings.PowerLimit),
    .vecSet .nvidia_clock_graphics [idx] (filterNumber GPU.Clocks.GraphicsClock),
    .vecSet .nvidia_clock_graphics_max [idx] (filterNumber GPU.MaxClocks.GraphicsClock),
    .vecSet .nvidia_clock_sm [idx] (filterNumber GPU.Clocks.SmClock),
    .vecSet .nvidia_clock_sm_max [idx] (filterNumber GPU.MaxClocks.SmClock),
    .vecSet .nvidia_clock_mem [idx] (filterNumber GPU.Clocks.MemClock),
    .vecSet .nvidia_clock_mem_max [idx] (filterNumber GPU.MaxClocks.MemClock),
    .vecSet .nvidia_clock_video [idx] (filterNumber GPU.Clocks.VideoClock),
    .vecSet .nvidia_clock_video_max [idx] (filterNumber GPU.MaxClocks.VideoClock) ]

/-- Line 245: `for i, GPU := range xmlData.GPUs`, from index `i` on. -/
def rangeStmts (i : Nat) : List GPU → List Stmt
  | [] => []
  | GPU :: rest => gpuStmts i GPU ++ rangeStmts (i + 1) rest

/-- Lines 243-267: the statements of the output block for a decoded document. -/
def outputStmts (xmlData : NvidiaSmiLog) : List Stmt :=
  .vecSet .nvidia_driver_info [xmlData.DriverVersion] (.ok 1)
    :: .countSet (filterNumber xmlData.AttachedGPUs)
    :: rangeStmts 0 xmlData.GPUs

/-- Lines 243-267 applied to the registry. -/
def applySnapshot (reg : Registry) (xmlData : NvidiaSmiLog) : Except NumError Registry :=
  runStmts reg (outputStmts xmlData)

/-! ## The collector loop -/

/-- What the environment does in one iteration of the loop of lines 218-270. -/
structure Cycle where
  /-- Line 221: `os.Getwd()` returns an error (asked only in test mode). -/
  getwdErr : Bool
  /-- Line 231: `cmd.Output()` returns an error (not started, or non-zero exit). -/
  cmdErr : Bool
  /-- Line 240: `xmlData` after `xml.Unmarshal(stdout, &xmlData)`. -/
  xmlData : NvidiaSmiLog
  /-- Line 240: `xml.Unmarshal` returned an error (the program drops it). -/
  decodeErr : Bool
deriving DecidableEq

/-- The collector goroutine together with the process it lives in. -/
inductive Collector
  /-- The loop is alive; `polls` iterations have been started. -/
  | running (reg : Registry) (polls : Nat)
  /-- The goroutine has returned (line 234); the process still serves `reg`. -/
  | stopped (reg : Registry) (polls : Nat)
  /-- The process was ended by `log.Fatal`. -/
  | exited
deriving DecidableEq

/-- One iteration of the loop, lines 219-269. -/
def step (testMode : String) : Collector → Cycle → Collector
  | .running reg polls, env =>
    if testMode = "1" ∧ env.getwdErr then .exited
    else if env.cmdErr then .stopped reg (polls + 1)
    else
      match applySnapshot reg env.xmlData with
      | .error _ => .exited
      | .ok reg1 => .running reg1 (polls + 1)
  | .stopped reg polls, _ => .stopped reg polls
  | .exited, _ => .exited

/-- The loop over a sequence of environments. -/
def run (testMode : String) : Collector → List Cycle → Collector
  | c, [] => c
  | c, env :: envs => run testMode (step testMode c env) envs

/-- The registry a scrape would read, while the process lives. -/
def Collector.registry : Collector → Option Registry
  | .running reg _ => some reg
  | .stopped reg _ => some reg
  | .exited => none

/-- The number of loop iterations started so far. -/
def Collector.polls : Collector → Option Nat
  | .running _ polls => some polls
  | .stopped _ polls => some polls
  | .exited => none

/-! ## Process start -/

/-- What `main` (lines 290-308) does with the environment. -/
structure MainRun where
  /-- The global `testMode` after line 292. -/
  testMode : String
  /-- The global `listenAddress` after line 300. -/
  listenAddress : String
  /-- The lines written by `log.Print`, in order. -/
  logged : List String
  /-- The address given to `http.ListenAndServe` (line 307). -/
  served : String
deriving DecidableEq, Repr

/-- Lines 290-308, up to the call of `http.ListenAndServe`. -/
def main (getenv : String → String) : MainRun :=
  let testMode := getenv "TEST_MODE"
  let log1 := if testMode = "1" then ["Test mode is enabled"] else []
  let listenAddress := getenv "LISTEN_ADDRESS"
  let listenAddress := if listenAddress.length = 0 then LISTEN_ADDRESS else listenAddress
  let log2 := ["Nvidia SMI exporter listening on " ++ listenAddress]
  { testMode := testMode, listenAddress := listenAddress, logged := log1 ++ log2,
    served := LISTEN_ADDRESS }

/-! ## Specification side: the sanitizer -/

/-- The token with every character that is not a digit or `.` deleted, the rest kept in
order (the words of the specification). -/
def stripDecoration (s : String) : List Char :=
  s.data.filter (fun c => c.isDigit || c == '.')

/-- The digits of a numeral read in base 10, dots skipped. -/
def digitsValue (cs : List Char) : Nat :=
  (cs.filter Char.isDigit).foldl (fun n c => n * 10 + (c.toNat - '0'.toNat)) 0

/-- The number of digits behind the first `.` of a numeral. -/
def fracDigits (cs : List Char) : Nat :=
  ((cs.dropWhile (fun c => c != '.')).filter Char.isDigit).length

/-- A numeral of digits and at most one `.` parsed as a floating-point number: the
binary64 nearest to `digitsValue / 10 ^ fracDigits`, when there is one. -/
def parseDecimal (cs : List Char) : Option Float64 :=
  roundFloat64 (digitsValue cs) (10 ^ fracDigits cs)

/-- The exponent `nd - dp` that `readFloat` has accumulated, once a dot was seen. -/
def FloatScan.scale (st : FloatScan) : Int :=
  if st.sawdot then (st.nd : Int) - st.dp else 0

/-! ## Specification side: a poll cycle -/

/-- The label combination a statement writes (`none` for the plain gauge). -/
def Stmt.key : Stmt → Option Key
  | .vecSet vec labels _ => some (vec, labels)
  | .countSet _ => none

/-- The argument of the `Set` call of a statement. -/
def Stmt.value : Stmt → Except NumError Float64
  | .vecSet _ _ value => value
  | .countSet value => value

/-- The label combinations a poll cycle on this document writes, in program order. -/
def writtenKeys (xmlData : NvidiaSmiLog) : List Key :=
  (outputStmts xmlData).filterMap Stmt.key

/-- The telemetry fields of a device: the nineteen text fields that lines 247-266 pass
through `filterNumber`. -/
inductive Field
  | FanSpeed
  | MemoryTotal
  | MemoryUsed
  | MemoryFree
  | GPUUtil
  | MemoryUtil
  | GPUTemp
  | GPUTempMaxThreshold
  | GPUTempSlowThreshold
  | PowerDraw
  | PowerLimit
  | GraphicsClock
  | MaxGraphicsClock
  | SmClock
  | MaxSmClock
  | MemClock
  | MaxMemClock
  | VideoClock
  | MaxVideoClock
deriving DecidableEq, Repr

/-- The text of a telemetry field of a device. -/
def Field.get : Field → GPU → String
  | .FanSpeed, g => g.FanSpeed
  | .MemoryTotal, g => g.FbMemoryUsage.Total
  | .MemoryUsed, g => g.FbMemoryUsage.Used
  | .MemoryFree, g => g.FbMemoryUsage.Free
  | .GPUUtil, g => g.Utilization.GPUUtil
  | .MemoryUtil, g => g.Utilization.MemoryUtil
  | .GPUTemp, g => g.Temperature.GPUTemp
  | .GPUTempMaxThreshold, g => g.Temperature.GPUTempMaxThreshold
  | .GPUTempSlowThreshold, g => g.Temperature.GPUTempSlowThreshold
  | .PowerDraw, g => g.PowerReadings.PowerDraw
  | .PowerLimit, g => g.PowerReadings.PowerLimit
  | .GraphicsClock, g => g.Clocks.GraphicsClock
  | .MaxGraphicsClock, g => g.MaxClocks.GraphicsClock
  | .SmClock, g => g.Clocks.SmClock
  | .MaxSmClock, g => g.MaxClocks.SmClock
  | .MemClock, g => g.Clocks.MemClock
  | .MaxMemClock, g => g.MaxClocks.MemClock
  | .VideoClock, g => g.Clocks.VideoClock
  | .MaxVideoClock, g => g.MaxClocks.VideoClock

/-- The device with one telemetry field replaced by the text `t`. -/
def Field.set : Field → GPU → String → GPU
  | .FanSpeed, g, t => { g with FanSpeed := t }
  | .MemoryTotal, g, t => { g with FbMemoryUsage := { g.FbMemoryUsage with Total := t } }
  | .MemoryUsed, g, t => { g with FbMemoryUsage := { g.FbMemoryUsage with Used := t } }
  | .MemoryFree, g, t => { g with FbMemoryUsage := { g.FbMemoryUsage with Free := t } }
  | .GPUUtil, g, t => { g with Utilization := { g.Utilization with GPUUtil := t } }
  | .MemoryUtil, g, t => { g with Utilization := { g.Utilization with MemoryUtil := t } }
  | .GPUTemp, g, t => { g with Temperature := { g.Temperature with GPUTemp := t } }
  | .GPUTempMaxThreshold, g, t =>
    { g with Temperature := { g.Temperature with GPUTempMaxThreshold := t } }
  | .GPUTempSlowThreshold, g, t =>
    { g with Temperature := { g.Temperature with GPUTempSlowThreshold := t } }
  | .PowerDraw, g, t => { g with PowerReadings := { g.PowerReadings with PowerDraw := t } }
  | .PowerLimit, g, t => { g with PowerReadings := { g.PowerReadings with PowerLimit := t } }
  | .GraphicsClock, g, t => { g with Clocks := { g.Clocks with GraphicsClock := t } }
  | .MaxGraphicsClock, g, t => { g with MaxClocks := { g.MaxClocks with GraphicsClock := t } }
  | .SmClock, g, t => { g with Clocks := { g.Clocks with SmClock := t } }
  | .MaxSmClock, g, t => { g with MaxClocks := { g.MaxClocks with SmClock := t } }
  | .MemClock, g, t => { g with Clocks := { g.Clocks with MemClock := t } }
  | .MaxMemClock, g, t => { g with MaxClocks := { g.MaxClocks with MemClock := t } }
  | .VideoClock, g, t => { g with Clocks := { g.Clocks with VideoClock := t } }
  | .MaxVideoClock, g, t => { g with MaxClocks := { g.MaxClocks with VideoClock := t } }

/-- The gauge vector that carries a telemetry field (lines 247-266). -/
def Field.vec : Field → GaugeVec
  | .FanSpeed => .nvidia_fanspeed
  | .MemoryTotal => .nvidia_memory_total
  | .MemoryUsed => .nvidia_memory_used
  | .MemoryFree => .nvidia_memory_free
  | .GPUUtil => .nvidia_utilization_gpu
  | .MemoryUtil => .nvidia_utilization_memory
  | .GPUTemp => .nvidia_temperatures
  | .GPUTempMaxThreshold => .nvidia_temperatures_max
  | .GPUTempSlowThreshold => .nvidia_temperatures_slow
  | .PowerDraw => .nvidia_power_usage
  | .PowerLimit => .nvidia_power_limit
  | .GraphicsClock => .nvidia_clock_graphics
  | .MaxGraphicsClock => .nvidia_clock_graphics_max
  | .SmClock => .nvidia_clock_sm
  | .MaxSmClock => .nvidia_clock_sm_max
  | .MemClock => .nvidia_clock_mem
  | .MaxMemClock => .nvidia_clock_mem_max
  | .VideoClock => .nvidia_clock_video
  | .MaxVideoClock => .nvidia_clock_video_max

/-- The document with telemetry field `f` of the device at index `i` replaced by `t`. -/
def replaceField (xmlData : NvidiaSmiLog) (i : Nat) (f : Field) (t : String) : NvidiaSmiLog :=
  { xmlData with GPUs := xmlData.GPUs.modify (fun g => f.set g t) i }

/-- A statement with its argument replaced by `v` when it writes `k`. -/
def Stmt.subst (k : Key) (v : Except NumError Float64) : Stmt → Stmt
  | .vecSet vec labels value => if (vec, labels) = k then .vecSet vec labels v
                                else .vecSet vec labels value
  | .countSet value => .countSet value

/-! ## Concrete inputs -/

/-- The token `1` followed by 309 zeros: the number `10 ^ 309`. -/
def overflowToken : String := String.mk ('1' :: List.replicate 309 '0')

/-- The fixture of the end-to-end scenario: two device blocks with fan speeds
`45 %` and `N/A`, every other field absent. -/
def fixture : NvidiaSmiLog :=
  ⟨"535.104.05", "2",
    [{ GPU.zero with FanSpeed := "45 %" }, { GPU.zero with FanSpeed := "N/A" }]⟩

/-- A cycle in which the command runs and the fixture is decoded. -/
def fixtureCycle : Cycle := ⟨false, false, fixture, false⟩

/-- A document whose only device has the fan speed `1.2.3`. -/
def twoDotsLog : NvidiaSmiLog := ⟨"535.104.05", "1", [{ GPU.zero with FanSpeed := "1.2.3" }]⟩

/-- A cycle in which the command runs and `twoDotsLog` is decoded. -/
def twoDotsCycle : Cycle := ⟨false, false, twoDotsLog, false⟩

/-- A registry that holds one child of a device that has since disappeared:
`fanspeed{minor="7"} = 30`. -/
def staleRegistry : Registry := ⟨0, [((.nvidia_fanspeed, ["7"]), 30)]⟩

/-- A cycle in which the command fails. -/
def failedCycle : Cycle := ⟨false, true, NvidiaSmiLog.zero, false⟩

/-- A cycle whose output is not a document: nothing decoded, `Unmarshal` errs. -/
def garbageCycle : Cycle := ⟨false, false, NvidiaSmiLog.zero, true⟩

/-- An environment that sets only `LISTEN_ADDRESS`, to `:8080`. -/
def overrideEnv : String → String := fun name => if name = "LISTEN_ADDRESS" then ":8080" else ""

/-- The decimal numeral read back. -/
def atoi (cs : List Char) : Nat :=
  cs.foldl (fun n c => n * 10 + (c.toNat - '0'.toNat)) 0

/-- Two registries that differ at most in the value of the child `k0`. -/
def Agree (k0 : Key) (ra rb : Registry) : Prop :=
  ra.nvidia_device_count = rb.nvidia_device_count ∧ ra.keys = rb.keys ∧
    ∀ k, k ≠ k0 → ra.find k = rb.find k

/-! ## Lemmas: stripping -/

theorem isDigit_iff (c : Char) : c.isDigit = true ↔ ('0' ≤ c ∧ c ≤ '9') := by
  simp [Char.isDigit, Char.le_def, UInt32.le_def]

theorem dot_not_digit : ('.' : Char).isDigit = false := by decide

theorem matchNonNumeric_eq (c : Char) :
    matchNonNumeric c = !(c.isDigit || c == '.') := by
  have h : (decide ('0' ≤ c) && decide (c ≤ '9')) = c.isDigit := by
    rw [Bool.eq_iff_iff]
    simp [isDigit_iff]
  simp [matchNonNumeric, h]

theorem ReplaceAllString_eq_filter (cs : List Char) :
    ReplaceAllString cs = cs.filter (fun c => c.isDigit || c == '.') := by
  induction cs with
  | nil => rfl
  | cons c cs ih =>
    by_cases h : (c.isDigit || c == '.') = true
    · simp [ReplaceAllString, matchNonNumeric_eq, h, ih]
    · simp only [Bool.not_eq_true] at h
      simp [ReplaceAllString, matchNonNumeric_eq, h, ih]

theorem ReplaceAllString_numeric (cs : List Char) :
    ∀ c ∈ ReplaceAllString cs, c.isDigit = true ∨ c = '.' := by
  intro c hc
  rw [ReplaceAllString_eq_filter, List.mem_filter] at hc
  simpa using hc.2

theorem ReplaceAllString_idem (cs : List Char) :
    ReplaceAllString (ReplaceAllString cs) = ReplaceAllString cs := by
  simp [ReplaceAllString_eq_filter, List.filter_filter]

theorem ReplaceAllString_eq_nil (cs : List Char) :
    ReplaceAllString cs = [] ↔ ∀ c ∈ cs, c.isDigit = false ∧ c ≠ '.' := by
  rw [ReplaceAllString_eq_filter, List.filter_eq_nil_iff]
  simp

theorem count_dot_ReplaceAllString (cs : List Char) :
    (ReplaceAllString cs).count '.' = cs.count '.' := by
  induction cs with
  | nil => rfl
  | cons c cs ih =>
    by_cases hc : c = '.'
    · subst hc
      simp [ReplaceAllString, matchNonNumeric, ih]
    · by_cases h : matchNonNumeric c = true
      · simp [ReplaceAllString, h, ih, List.count_cons, hc]
      · simp [ReplaceAllString, h, ih, List.count_cons, hc]

/-! ## Lemmas: the scan of readFloat -/

theorem readFloatLoop_dot (st : FloatScan) (cs : List Char) (h : st.sawdot = false) :
    readFloatLoop st ('.' :: cs)
      = readFloatLoop ⟨st.mantissa, st.nd, st.nd, true, st.sawdigits⟩ cs := by
  simp [readFloatLoop, h]

theorem readFloatLoop_zero (st : FloatScan) (c : Char) (cs : List Char)
    (hc : c ≠ '.') (hd : c.isDigit = true) (hz : c = '0' ∧ st.nd = 0) :
    readFloatLoop st (c :: cs)
      = readFloatLoop ⟨st.mantissa, st.nd, st.dp - 1, st.sawdot, true⟩ cs := by
  have hrange : '0' ≤ c ∧ c ≤ '9' := (isDigit_iff c).1 hd
  rw [readFloatLoop, if_neg hc, if_pos hrange, if_pos hz]

theorem readFloatLoop_digit (st : FloatScan) (c : Char) (cs : List Char)
    (hc : c ≠ '.') (hd : c.isDigit = true) (hz : ¬ (c = '0' ∧ st.nd = 0)) :
    readFloatLoop st (c :: cs)
      = readFloatLoop ⟨st.mantissa * 10 + (c.toNat - '0'.toNat), st.nd + 1, st.dp,
          st.sawdot, true⟩ cs := by
  have hrange : '0' ≤ c ∧ c ≤ '9' := (isDigit_iff c).1 hd
  rw [readFloatLoop, if_neg hc, if_pos hrange, if_neg hz]

theorem readFloatLoop_complete (cs : List Char) :
    ∀ st : FloatScan, (∀ c ∈ cs, c.isDigit = true ∨ c = '.') →
      cs.count '.' + (if st.sawdot then 1 else 0) ≤ 1 →
      (st.nd = 0 → st.mantissa = 0) →
      ∃ st1 : FloatScan, readFloatLoop st cs = (st1, []) ∧
        st1.mantissa
          = (cs.filter Char.isDigit).foldl (fun n c => n * 10 + (c.toNat - '0'.toNat)) st.mantissa ∧
        st1.sawdigits = (st.sawdigits || cs.any Char.isDigit) ∧
        st1.scale = st.scale +
          (if st.sawdot then ((cs.filter Char.isDigit).length : Int) else (fracDigits cs : Int)) := by
  induction cs with
  | nil =>
    intro st _ _ _
    refine ⟨st, rfl, rfl, by simp, ?_⟩
    cases st.sawdot <;> simp [fracDigits]
  | cons c cs ih =>
    intro st hnum hdot hm
    have hnum1 : ∀ c ∈ cs, c.isDigit = true ∨ c = '.' :=
      fun x hx => hnum x (List.mem_cons_of_mem _ hx)
    by_cases hc : c = '.'
    · subst hc
      have hsd : st.sawdot = false := by
        cases h : st.sawdot
        · rfl
        · simp [h] at hdot
      have hcnt : cs.count '.' = 0 := by
        simp [hsd] at hdot
        simpa using hdot
      obtain ⟨st1, h1, h2, h3, h4⟩ :=
        ih ⟨st.mantissa, st.nd, st.nd, true, st.sawdigits⟩ hnum1 (by simp [hcnt]) hm
      refine ⟨st1, ?_, ?_, ?_, ?_⟩
      · rw [readFloatLoop_dot st cs hsd, h1]
      · simpa [dot_not_digit] using h2
      · simpa [dot_not_digit] using h3
      · simp [FloatScan.scale, hsd] at h4 ⊢
        simp [h4, fracDigits, dot_not_digit]
    · have hdig : c.isDigit = true := (hnum c (List.mem_cons_self _ _)).resolve_right hc
      have hdot1 : cs.count '.' + (if st.sawdot then 1 else 0) ≤ 1 := by
        simpa [List.count_cons, hc] using hdot
      by_cases hz : c = '0' ∧ st.nd = 0
      · obtain ⟨st1, h1, h2, h3, h4⟩ :=
          ih ⟨st.mantissa, st.nd, st.dp - 1, st.sawdot, true⟩ hnum1 hdot1 hm
        refine ⟨st1, ?_, ?_, ?_, ?_⟩
        · rw [readFloatLoop_zero st c cs hc hdig hz, h1]
        · simp only [List.filter_cons, hdig, if_true, List.foldl_cons]
          rw [h2, hm hz.2, hz.1]
          rfl
        · simp [h3, hdig]
        · rw [h4]
          cases hs : st.sawdot
          · simp [FloatScan.scale, hs, fracDigits, hc]
          · simp [FloatScan.scale, hs, hdig]
            omega
      · obtain ⟨st1, h1, h2, h3, h4⟩ :=
          ih ⟨st.mantissa * 10 + (c.toNat - '0'.toNat), st.nd + 1, st.dp, st.sawdot, true⟩
            hnum1 hdot1 (by simp)
        refine ⟨st1, ?_, ?_, ?_, ?_⟩
        · rw [readFloatLoop_digit st c cs hc hdig hz, h1]
        · simp only [List.filter_cons, hdig, if_true, List.foldl_cons]
          exact h2
        · simp [h3, hdig]
        · rw [h4]
          cases hs : st.sawdot
          · simp [FloatScan.scale, hs, fracDigits, hc]
          · simp [FloatScan.scale, hs, hdig]
            omega

theorem readFloatLoop_second_dot (cs : List Char) :
    ∀ st : FloatScan, (∀ c ∈ cs, c.isDigit = true ∨ c = '.') →
      2 ≤ cs.count '.' + (if st.sawdot then 1 else 0) →
      (readFloatLoop st cs).2 ≠ [] := by
  induction cs with
  | nil =>
    intro st _ h
    cases hs : st.sawdot <;> simp [hs] at h
  | cons c cs ih =>
    intro st hnum hdot
    have hnum1 : ∀ c ∈ cs, c.isDigit = true ∨ c = '.' :=
      fun x hx => hnum x (List.mem_cons_of_mem _ hx)
    by_cases hc : c = '.'
    · subst hc
      cases hs : st.sawdot
      · rw [readFloatLoop_dot st cs hs]
        exact ih _ hnum1 (by simp [hs] at hdot; simpa using hdot)
      · simp [readFloatLoop, hs]
    · have hdig : c.isDigit = true := (hnum c (List.mem_cons_self _ _)).resolve_right hc
      have hdot1 : 2 ≤ cs.count '.' + (if st.sawdot then 1 else 0) := by
        simpa [List.count_cons, hc] using hdot
      by_cases hz : c = '0' ∧ st.nd = 0
      · rw [readFloatLoop_zero st c cs hc hdig hz]
        exact ih _ hnum1 hdot1
      · rw [readFloatLoop_digit st c cs hc hdig hz]
        exact ih _ hnum1 hdot1

/-! ## Lemmas: ParseFloat and filterNumber -/

theorem roundFloat64_nonneg (n d : Nat) (f : Float64) (h : roundFloat64 n d = some f) :
    0 ≤ f := by
  unfold roundFloat64 at h
  by_cases hn : n = 0
  · rw [if_pos hn] at h
    cases h
    exact le_refl _
  · rw [if_neg hn] at h
    dsimp only at h
    split at h <;> split at h <;>
      first
      | (cases h; exact Rat.mkRat_nonneg (by positivity) _)
      | cases h

set_option maxRecDepth 100000 in
set_option exponentiation.threshold 2000 in
/-- Known roundings: `0.1`, a tie above `2 ^ 53` (to even), the smallest subnormal, the
largest finite value, and the first value that overflows. -/
theorem roundFloat64_samples :
    roundFloat64 1 10 = some (mkRat 3602879701896397 36028797018963968) ∧
    roundFloat64 9007199254740993 1 = some 9007199254740992 ∧
    roundFloat64 9007199254740995 1 = some 9007199254740996 ∧
    roundFloat64 1 (2 ^ 1074) = some (mkRat 1 (2 ^ 1074)) ∧
    roundFloat64 1 (2 ^ 1075) = some 0 ∧
    roundFloat64 (2 ^ 1024 - 2 ^ 970 - 1) 1 = some (mkRat ((2 ^ 1024 - 2 ^ 971 : Nat) : Int) 1) ∧
    roundFloat64 (2 ^ 1024 - 2 ^ 970) 1 = none := by
  refine ⟨by decide, by decide, by decide, by decide, by decide, by decide, by decide⟩

/-- What `ParseFloat` returns on a numeral of digits and at most one dot that has a
digit: the nearest binary64 of its decimal value, or `ErrRange`. -/
theorem ParseFloat_numeral (s : String)
    (hnum : ∀ c ∈ s.data, c.isDigit = true ∨ c = '.')
    (hdot : s.data.count '.' ≤ 1) (hdig : ∃ c ∈ s.data, c.isDigit = true) :
    ParseFloat s =
      match parseDecimal s.data with
      | none => .error .ErrRange
      | some f => .ok f := by
  obtain ⟨st1, h1, h2, h3, h4⟩ :=
    readFloatLoop_complete s.data ⟨0, 0, 0, false, false⟩ hnum (by simpa using hdot) (by simp)
  have hsd : st1.sawdigits = true := by
    rw [h3]
    simpa using hdig
  have hexp : ((st1.nd : Int) - (if st1.sawdot then st1.dp else st1.nd)).toNat
      = fracDigits s.data := by
    have : st1.scale = (fracDigits s.data : Int) := by simpa [FloatScan.scale] using h4
    rw [← Int.toNat_ofNat (fracDigits s.data), ← this]
    cases hs : st1.sawdot <;> simp [FloatScan.scale, hs]
  unfold ParseFloat
  rw [h1]
  simp only [hsd, Bool.not_true, Bool.false_eq_true, if_false, ne_eq, not_true_eq_false]
  rw [hexp, h2]
  rfl

theorem ParseFloat_nonneg (s : String) (v : Float64) (h : ParseFloat s = .ok v) : 0 ≤ v := by
  unfold ParseFloat at h
  simp only at h
  split at h
  · simp at h
  · split at h
    · simp at h
    · split at h
      · simp at h
      · rename_i f hf
        simp only [Except.ok.injEq] at h
        rw [← h]
        exact roundFloat64_nonneg _ _ _ hf

theorem ParseFloat_two_dots (s : String)
    (hnum : ∀ c ∈ s.data, c.isDigit = true ∨ c = '.') (hdot : 2 ≤ s.data.count '.') :
    ParseFloat s = .error .ErrSyntax := by
  have h := readFloatLoop_second_dot s.data ⟨0, 0, 0, false, false⟩ hnum (by simpa using hdot)
  unfold ParseFloat
  simp only
  split <;> rfl

theorem filterNumber_def (s : String) :
    filterNumber s =
      if ReplaceAllString s.data = [] then .ok (-1)
      else ParseFloat (String.mk (ReplaceAllString s.data)) := by
  unfold filterNumber
  simp only
  have : (String.mk (ReplaceAllString s.data) = "") ↔ ReplaceAllString s.data = [] := by
    constructor
    · intro h
      exact congrArg String.data h
    · intro h
      rw [h]
  by_cases h : ReplaceAllString s.data = []
  · rw [if_pos (this.2 h), if_pos h]
  · rw [if_neg (fun h1 => h (this.1 h1)), if_neg h]
    cases ParseFloat (String.mk (ReplaceAllString s.data)) <;> rfl

theorem filterNumber_sentinel (s : String)
    (h : ∀ c ∈ s.data, c.isDigit = false ∧ c ≠ '.') : filterNumber s = .ok (-1) := by
  rw [filterNumber_def, if_pos ((ReplaceAllString_eq_nil s.data).2 h)]

theorem filterNumber_strip (s : String) :
    filterNumber (String.mk (ReplaceAllString s.data)) = filterNumber s := by
  rw [filterNumber_def, filterNumber_def]
  simp only [ReplaceAllString_idem]

theorem filterNumber_ok_cases (s : String) (v : Float64) (h : filterNumber s = .ok v) :
    (ReplaceAllString s.data = [] ∧ v = -1) ∨ (ReplaceAllString s.data ≠ [] ∧ 0 ≤ v) := by
  rw [filterNumber_def] at h
  by_cases he : ReplaceAllString s.data = []
  · rw [if_pos he] at h
    left
    exact ⟨he, by simpa using h.symm⟩
  · rw [if_neg he] at h
    right
    exact ⟨he, ParseFloat_nonneg _ _ h⟩

theorem filterNumber_numeral (s : String) (f : Float64)
    (hdig : ∃ c ∈ s.data, c.isDigit = true) (hdot : s.data.count '.' ≤ 1)
    (hval : parseDecimal (stripDecoration s) = some f) : filterNumber s = .ok f := by
  have hstrip : ReplaceAllString s.data = stripDecoration s := ReplaceAllString_eq_filter s.data
  obtain ⟨c, hc, hcd⟩ := hdig
  have hmem : c ∈ ReplaceAllString s.data := by
    rw [ReplaceAllString_eq_filter, List.mem_filter]
    exact ⟨hc, by simp [hcd]⟩
  have hne : ReplaceAllString s.data ≠ [] := List.ne_nil_of_mem hmem
  rw [filterNumber_def, if_neg hne,
    ParseFloat_numeral (String.mk (ReplaceAllString s.data)) (ReplaceAllString_numeric s.data)
      (by rw [count_dot_ReplaceAllString]; exact hdot) ⟨c, hmem, hcd⟩]
  simp only
  rw [hstrip, hval]

theorem filterNumber_two_dots (s : String) (hdot : 2 ≤ s.data.count '.') :
    filterNumber s = .error .ErrSyntax := by
  have hne : ReplaceAllString s.data ≠ [] := by
    intro h
    have := count_dot_ReplaceAllString s.data
    rw [h] at this
    simp at this
    omega
  rw [filterNumber_def, if_neg hne]
  exact ParseFloat_two_dots _ (ReplaceAllString_numeric s.data)
    (by simpa [count_dot_ReplaceAllString] using hdot)

/-! ## Lemmas: the registry -/

theorem lookupKey_eq_none_iff (k : Key) (ch : List (Key × Float64)) :
    lookupKey k ch = none ↔ k ∉ ch.map Prod.fst := by
  induction ch with
  | nil => simp [lookupKey]
  | cons e ch ih =>
    by_cases h : e.1 = k
    · simp [lookupKey, h]
    · have h1 : ¬ k = e.1 := fun h2 => h h2.symm
      simp [lookupKey, h, h1, ih]

theorem lookupKey_append (k k1 : Key) (v : Float64) (ch : List (Key × Float64)) :
    lookupKey k (ch ++ [(k1, v)])
      = if k ∈ ch.map Prod.fst then lookupKey k ch else if k1 = k then some v else none := by
  induction ch with
  | nil =>
    by_cases h : k1 = k <;> simp [lookupKey, h]
  | cons e ch ih =>
    by_cases h : e.1 = k
    · simp [lookupKey, h]
    · have h1 : ¬ k = e.1 := fun h2 => h h2.symm
      simp only [List.cons_append, lookupKey, if_neg h, List.map_cons, List.mem_cons, h1,
        false_or]
      exact ih

theorem lookupKey_map_set (k k1 : Key) (v : Float64) (ch : List (Key × Float64)) :
    lookupKey k (ch.map (fun e => if e.1 = k1 then (e.1, v) else e))
      = if k1 = k then (lookupKey k ch).map (fun _ => v) else lookupKey k ch := by
  induction ch with
  | nil => simp [lookupKey]
  | cons e ch ih =>
    by_cases h1 : k1 = k
    · subst h1
      rw [if_pos rfl] at ih ⊢
      by_cases h : e.1 = k1
      · simp [lookupKey, h]
      · simp only [List.map_cons, if_neg h, lookupKey, ih]
    · rw [if_neg h1] at ih ⊢
      by_cases h2 : e.1 = k1
      · have h : ¬ e.1 = k := fun h3 => h1 (h2.symm.trans h3)
        simp only [List.map_cons, if_pos h2, lookupKey, if_neg h, ih]
      · simp only [List.map_cons, if_neg h2, lookupKey, ih]

theorem find_eq_none_iff (reg : Registry) (k : Key) : reg.find k = none ↔ k ∉ reg.keys :=
  lookupKey_eq_none_iff k reg.children

theorem find_isSome_iff (reg : Registry) (k : Key) : (reg.find k).isSome ↔ k ∈ reg.keys := by
  rw [← not_iff_not, ← find_eq_none_iff]
  cases reg.find k <;> simp

theorem find_children_append (n : Float64) (ch : List (Key × Float64)) (k k1 : Key) (v : Float64) :
    Registry.find ⟨n, ch ++ [(k1, v)]⟩ k
      = if k ∈ (Registry.mk n ch).keys then Registry.find ⟨n, ch⟩ k
        else if k1 = k then some v else none :=
  lookupKey_append k k1 v ch

theorem find_Set (reg : Registry) (k k1 : Key) (v : Float64) :
    (reg.Set k1 v).find k = if k1 = k then (reg.find k).map (fun _ => v) else reg.find k :=
  lookupKey_map_set k k1 v reg.children

theorem keys_Set (reg : Registry) (k : Key) (v : Float64) : (reg.Set k v).keys = reg.keys := by
  obtain ⟨n, ch⟩ := reg
  simp only [Registry.keys, Registry.Set, List.map_map]
  apply List.map_congr_left
  intro e _
  by_cases h : e.1 = k <;> simp [h]

theorem keys_With (reg : Registry) (k : Key) :
    (reg.With k).keys = if k ∈ reg.keys then reg.keys else reg.keys ++ [k] := by
  unfold Registry.With
  by_cases h : k ∈ reg.keys
  · rw [if_pos h, if_pos h]
  · rw [if_neg h, if_neg h]
    simp [Registry.keys]

theorem find_With (reg : Registry) (k k1 : Key) :
    (reg.With k1).find k
      = if k ∈ reg.keys then reg.find k else if k1 = k then some 0 else none := by
  unfold Registry.With
  by_cases h1 : k1 ∈ reg.keys
  · rw [if_pos h1]
    by_cases h : k ∈ reg.keys
    · rw [if_pos h]
    · rw [if_neg h]
      have hne : ¬ k1 = k := fun h2 => h (h2 ▸ h1)
      rw [if_neg hne]
      exact (find_eq_none_iff reg k).2 h
  · rw [if_neg h1]
    obtain ⟨n, ch⟩ := reg
    exact find_children_append n ch k k1 0

/-- The value read for `k1` after `With(k1).Set(v)`. -/
theorem find_put_same (reg : Registry) (k : Key) (v : Float64) :
    ((reg.With k).Set k v).find k = some v := by
  rw [find_Set, if_pos rfl, find_With]
  by_cases h : k ∈ reg.keys
  · rw [if_pos h]
    have := (find_isSome_iff reg k).2 h
    cases hf : reg.find k
    · simp [hf] at this
    · rfl
  · rw [if_neg h, if_pos rfl]
    rfl

/-- The call `With(k1).Set(v)` leaves every other child as it was. -/
theorem find_put_other (reg : Registry) (k k1 : Key) (v : Float64) (h : k1 ≠ k) :
    ((reg.With k1).Set k1 v).find k = reg.find k := by
  rw [find_Set, if_neg h, find_With, if_neg h]
  by_cases hk : k ∈ reg.keys
  · rw [if_pos hk]
  · rw [if_neg hk]
    exact ((find_eq_none_iff reg k).2 hk).symm

theorem keys_put (reg : Registry) (k : Key) (v : Float64) :
    ((reg.With k).Set k v).keys = if k ∈ reg.keys then reg.keys else reg.keys ++ [k] := by
  rw [keys_Set, keys_With]

theorem count_put (reg : Registry) (k : Key) (v : Float64) :
    ((reg.With k).Set k v).nvidia_device_count = reg.nvidia_device_count := by
  unfold Registry.With Registry.Set
  by_cases h : k ∈ reg.keys
  · rw [if_pos h]
  · rw [if_neg h]

theorem mem_keys_put (reg : Registry) (k k1 : Key) (v : Float64) :
    k ∈ ((reg.With k1).Set k1 v).keys ↔ k ∈ reg.keys ∨ k = k1 := by
  rw [keys_put]
  by_cases h : k1 ∈ reg.keys
  · rw [if_pos h]
    constructor
    · exact Or.inl
    · rintro (h1 | h1)
      · exact h1
      · exact h1 ▸ h
  · rw [if_neg h]
    simp

theorem nodup_keys_put (reg : Registry) (k : Key) (v : Float64) (h : reg.keys.Nodup) :
    ((reg.With k).Set k v).keys.Nodup := by
  rw [keys_put]
  by_cases hk : k ∈ reg.keys
  · rw [if_pos hk]
    exact h
  · rw [if_neg hk]
    rw [List.nodup_append]
    refine ⟨h, List.nodup_singleton k, ?_⟩
    intro a ha hb
    rw [List.mem_singleton] at hb
    exact hk (hb ▸ ha)

/-! ## Lemmas: strconv.Itoa -/

theorem formatBits_append (fuel : Nat) : ∀ (u : Nat) (acc : List Char),
    formatBits fuel u acc = formatBits fuel u [] ++ acc := by
  induction fuel with
  | zero => intro u acc; rfl
  | succ fuel ih =>
    intro u acc
    simp only [formatBits]
    by_cases h : u / 10 = 0
    · simp [h]
    · rw [if_neg h, if_neg h, ih (u / 10) (_ :: acc), ih (u / 10) [_]]
      simp

theorem digit_toNat (d : Nat) (h : d < 10) :
    (Char.ofNat ('0'.toNat + d)).toNat - '0'.toNat = d := by
  interval_cases d <;> decide

theorem atoi_formatBits (fuel : Nat) : ∀ u : Nat, u < fuel → atoi (formatBits fuel u []) = u := by
  induction fuel with
  | zero => intro u h; omega
  | succ fuel ih =>
    intro u hu
    simp only [formatBits]
    by_cases h : u / 10 = 0
    · rw [if_pos h]
      have hlt : u < 10 := by omega
      simp only [atoi, List.foldl_cons, List.foldl_nil, Nat.zero_mul, Nat.zero_add]
      rw [Nat.mod_eq_of_lt hlt]
      exact digit_toNat u hlt
    · rw [if_neg h, formatBits_append]
      have hlt : u / 10 < fuel := by omega
      have := ih (u / 10) hlt
      unfold atoi at this ⊢
      rw [List.foldl_append, this]
      simp only [List.foldl_cons, List.foldl_nil]
      rw [digit_toNat (u % 10) (Nat.mod_lt _ (by decide))]
      omega

theorem Itoa_injective (i j : Nat) (h : Itoa i = Itoa j) : i = j := by
  have h1 : atoi (Itoa i).data = atoi (Itoa j).data := by rw [h]
  simpa [Itoa, atoi_formatBits (i + 1) i (Nat.lt_succ_self i),
    atoi_formatBits (j + 1) j (Nat.lt_succ_self j)] using h1

/-! ## Lemmas: running statements -/

theorem Stmt.run_ok (reg reg1 : Registry) (s : Stmt) (h : s.run reg = .ok reg1) :
    (∃ vec labels v, s = .vecSet vec labels (.ok v)
        ∧ reg1 = (reg.With (vec, labels)).Set (vec, labels) v) ∨
    (∃ v, s = .countSet (.ok v) ∧ reg1 = { reg with nvidia_device_count := v }) := by
  cases s with
  | vecSet vec labels value =>
    cases value with
    | error e => simp [Stmt.run] at h
    | ok v =>
      left
      refine ⟨vec, labels, v, rfl, ?_⟩
      simp only [Stmt.run, Except.ok.injEq] at h
      exact h.symm
  | countSet value =>
    cases value with
    | error e => simp [Stmt.run] at h
    | ok v =>
      right
      refine ⟨v, rfl, ?_⟩
      simp only [Stmt.run, Except.ok.injEq] at h
      exact h.symm

theorem Stmt.run_value_ok (reg : Registry) (s : Stmt) (v : Float64) (h : s.value = .ok v) :
    ∃ reg1, s.run reg = .ok reg1 := by
  cases s with
  | vecSet vec labels value =>
    simp only [Stmt.value] at h
    subst h
    exact ⟨_, rfl⟩
  | countSet value =>
    simp only [Stmt.value] at h
    subst h
    exact ⟨_, rfl⟩

theorem Stmt.run_value_error (reg : Registry) (s : Stmt) (e : NumError)
    (h : s.value = .error e) : s.run reg = .error e := by
  cases s with
  | vecSet vec labels value =>
    simp only [Stmt.value] at h
    subst h
    rfl
  | countSet value =>
    simp only [Stmt.value] at h
    subst h
    rfl

theorem runStmts_cons_ok (reg reg2 : Registry) (s : Stmt) (ss : List Stmt)
    (h : runStmts reg (s :: ss) = .ok reg2) :
    ∃ reg1, s.run reg = .ok reg1 ∧ runStmts reg1 ss = .ok reg2 := by
  simp only [runStmts] at h
  cases hs : s.run reg with
  | error e => rw [hs] at h; simp at h
  | ok reg1 => rw [hs] at h; exact ⟨reg1, rfl, h⟩

theorem runStmts_append_ok (a b : List Stmt) : ∀ (reg reg2 : Registry),
    runStmts reg (a ++ b) = .ok reg2 →
    ∃ reg1, runStmts reg a = .ok reg1 ∧ runStmts reg1 b = .ok reg2 := by
  induction a with
  | nil => intro reg reg2 h; exact ⟨reg, rfl, h⟩
  | cons s a ih =>
    intro reg reg2 h
    obtain ⟨r1, h1, h2⟩ := runStmts_cons_ok reg reg2 s (a ++ b) h
    obtain ⟨r3, h3, h4⟩ := ih r1 reg2 h2
    refine ⟨r3, ?_, h4⟩
    simp only [runStmts, h1]
    exact h3

theorem runStmts_error_of_mem (ss : List Stmt) : ∀ (reg : Registry) (s : Stmt) (e : NumError),
    s ∈ ss → s.value = .error e → ∃ e1, runStmts reg ss = .error e1 := by
  induction ss with
  | nil => intro reg s e h; simp at h
  | cons s0 ss ih =>
    intro reg s e hmem hval
    cases hs : s0.run reg with
    | error e0 => exact ⟨e0, by simp [runStmts, hs]⟩
    | ok reg1 =>
      rcases List.mem_cons.1 hmem with h | h
      · subst h
        rw [Stmt.run_value_error reg s e hval] at hs
        simp at hs
      · obtain ⟨e1, h1⟩ := ih reg1 s e h hval
        exact ⟨e1, by simp [runStmts, hs, h1]⟩

theorem runStmts_ok_of_values (ss : List Stmt) : ∀ (reg : Registry),
    (∀ s ∈ ss, ∃ v, s.value = .ok v) → ∃ reg1, runStmts reg ss = .ok reg1 := by
  induction ss with
  | nil => intro reg _; exact ⟨reg, rfl⟩
  | cons s ss ih =>
    intro reg h
    obtain ⟨v, hv⟩ := h s (List.mem_cons_self _ _)
    obtain ⟨r1, h1⟩ := Stmt.run_value_ok reg s v hv
    obtain ⟨r2, h2⟩ := ih r1 (fun x hx => h x (List.mem_cons_of_mem _ hx))
    exact ⟨r2, by simp [runStmts, h1, h2]⟩

theorem runStmts_values_ok (ss : List Stmt) : ∀ (reg reg1 : Registry),
    runStmts reg ss = .ok reg1 → ∀ s ∈ ss, ∃ v, s.value = .ok v := by
  intro reg reg1 h s hs
  cases hv : s.value with
  | ok v => exact ⟨v, rfl⟩
  | error e =>
    obtain ⟨e1, h1⟩ := runStmts_error_of_mem ss reg s e hs hv
    rw [h1] at h
    simp at h

theorem runStmts_find_other (ss : List Stmt) : ∀ (reg reg1 : Registry) (k : Key),
    runStmts reg ss = .ok reg1 → k ∉ ss.filterMap Stmt.key → reg1.find k = reg.find k := by
  induction ss with
  | nil =>
    intro reg reg1 k h _
    simp only [runStmts, Except.ok.injEq] at h
    rw [h]
  | cons s ss ih =>
    intro reg reg1 k h hk
    obtain ⟨r1, h1, h2⟩ := runStmts_cons_ok reg reg1 s ss h
    have hk1 : k ∉ ss.filterMap Stmt.key := by
      intro hm
      apply hk
      cases hkey : s.key <;> simp [List.filterMap_cons, hkey, hm]
    rw [ih r1 reg1 k h2 hk1]
    rcases Stmt.run_ok reg r1 s h1 with ⟨vec, labels, v, hs, hr⟩ | ⟨v, hs, hr⟩
    · subst hs hr
      apply find_put_other
      intro heq
      apply hk
      simp [List.filterMap_cons, Stmt.key, heq]
    · subst hr
      rfl

theorem runStmts_find_written (ss : List Stmt) : ∀ (reg reg1 : Registry)
    (vec : GaugeVec) (labels : List String) (v : Float64),
    runStmts reg ss = .ok reg1 → (ss.filterMap Stmt.key).Nodup →
    Stmt.vecSet vec labels (.ok v) ∈ ss → reg1.find (vec, labels) = some v := by
  induction ss with
  | nil => intro reg reg1 vec labels v _ _ h; simp at h
  | cons s ss ih =>
    intro reg reg1 vec labels v h hnd hmem
    obtain ⟨r1, h1, h2⟩ := runStmts_cons_ok reg reg1 s ss h
    rcases List.mem_cons.1 hmem with hm | hm
    · subst hm
      simp only [List.filterMap_cons, Stmt.key, List.nodup_cons] at hnd
      rw [runStmts_find_other ss r1 reg1 (vec, labels) h2 hnd.1]
      simp only [Stmt.run, Except.ok.injEq] at h1
      rw [← h1]
      exact find_put_same reg (vec, labels) v
    · apply ih r1 reg1 vec labels v h2 _ hm
      cases hkey : s.key with
      | none => simpa [List.filterMap_cons, hkey] using hnd
      | some k =>
        simp only [List.filterMap_cons, hkey, List.nodup_cons] at hnd
        exact hnd.2

theorem runStmts_mem_keys (ss : List Stmt) : ∀ (reg reg1 : Registry) (k : Key),
    runStmts reg ss = .ok reg1 →
    (k ∈ reg1.keys ↔ k ∈ reg.keys ∨ k ∈ ss.filterMap Stmt.key) := by
  induction ss with
  | nil =>
    intro reg reg1 k h
    simp only [runStmts, Except.ok.injEq] at h
    simp [h]
  | cons s ss ih =>
    intro reg reg1 k h
    obtain ⟨r1, h1, h2⟩ := runStmts_cons_ok reg reg1 s ss h
    rw [ih r1 reg1 k h2]
    rcases Stmt.run_ok reg r1 s h1 with ⟨vec, labels, v, hs, hr⟩ | ⟨v, hs, hr⟩
    · subst hs hr
      rw [mem_keys_put]
      simp only [List.filterMap_cons, Stmt.key, List.mem_cons]
      tauto
    · subst hs hr
      simp only [List.filterMap_cons, Stmt.key]
      rfl

theorem runStmts_nodup (ss : List Stmt) : ∀ (reg reg1 : Registry),
    runStmts reg ss = .ok reg1 → reg.keys.Nodup → reg1.keys.Nodup := by
  induction ss with
  | nil =>
    intro reg reg1 h hn
    simp only [runStmts, Except.ok.injEq] at h
    rw [← h]
    exact hn
  | cons s ss ih =>
    intro reg reg1 h hn
    obtain ⟨r1, h1, h2⟩ := runStmts_cons_ok reg reg1 s ss h
    apply ih r1 reg1 h2
    rcases Stmt.run_ok reg r1 s h1 with ⟨vec, labels, v, hs, hr⟩ | ⟨v, hs, hr⟩
    · subst hr
      exact nodup_keys_put reg _ v hn
    · subst hr
      exact hn

theorem runStmts_count (ss : List Stmt) : ∀ (reg reg1 : Registry),
    runStmts reg ss = .ok reg1 → (∀ s ∈ ss, s.key ≠ none) →
    reg1.nvidia_device_count = reg.nvidia_device_count := by
  induction ss with
  | nil =>
    intro reg reg1 h _
    simp only [runStmts, Except.ok.injEq] at h
    rw [h]
  | cons s ss ih =>
    intro reg reg1 h hk
    obtain ⟨r1, h1, h2⟩ := runStmts_cons_ok reg reg1 s ss h
    rw [ih r1 reg1 h2 (fun x hx => hk x (List.mem_cons_of_mem _ hx))]
    rcases Stmt.run_ok reg r1 s h1 with ⟨vec, labels, v, hs, hr⟩ | ⟨v, hs, hr⟩
    · subst hr
      exact count_put reg _ v
    · subst hs
      exact absurd rfl (hk _ (List.mem_cons_self _ _))

/-! ## Lemmas: the statements of the output block -/

theorem gpuStmts_key (i : Nat) (g : GPU) :
    ∀ s ∈ gpuStmts i g, ∃ vec rest, s.key = some (vec, Itoa i :: rest)
      ∧ vec ≠ .nvidia_driver_info := by
  intro s hs
  simp only [gpuStmts, List.mem_cons, List.mem_singleton, List.not_mem_nil, or_false] at hs
  rcases hs with h | h | h | h | h | h | h | h | h | h | h | h | h | h | h | h | h | h | h | h <;>
    subst h <;> exact ⟨_, _, rfl, by decide⟩

theorem gpuStmts_keys_nodup (i : Nat) (g : GPU) :
    ((gpuStmts i g).filterMap Stmt.key).Nodup := by
  simp [gpuStmts, Stmt.key]

theorem field_mem_gpuStmts (i : Nat) (g : GPU) (f : Field) :
    Stmt.vecSet f.vec [Itoa i] (filterNumber (f.get g)) ∈ gpuStmts i g := by
  cases f <;> simp [gpuStmts, Field.vec, Field.get]

theorem info_mem_gpuStmts (i : Nat) (g : GPU) :
    Stmt.vecSet .nvidia_info [Itoa i, g.UUID, g.ProductName] (.ok 1) ∈ gpuStmts i g := by
  simp [gpuStmts]

theorem rangeStmts_key (gpus : List GPU) : ∀ (k : Nat),
    ∀ s ∈ rangeStmts k gpus, ∃ vec j rest, k ≤ j ∧ s.key = some (vec, Itoa j :: rest)
      ∧ vec ≠ .nvidia_driver_info := by
  induction gpus with
  | nil => intro k s hs; simp [rangeStmts] at hs
  | cons g gpus ih =>
    intro k s hs
    simp only [rangeStmts, List.mem_append] at hs
    rcases hs with h | h
    · obtain ⟨vec, rest, h1, h2⟩ := gpuStmts_key k g s h
      exact ⟨vec, k, rest, le_refl k, h1, h2⟩
    · obtain ⟨vec, j, rest, h0, h1, h2⟩ := ih (k + 1) s h
      exact ⟨vec, j, rest, by omega, h1, h2⟩

theorem rangeStmts_keys_nodup (gpus : List GPU) : ∀ (k : Nat),
    ((rangeStmts k gpus).filterMap Stmt.key).Nodup := by
  induction gpus with
  | nil => intro k; simp [rangeStmts]
  | cons g gpus ih =>
    intro k
    simp only [rangeStmts, List.filterMap_append]
    rw [List.nodup_append]
    refine ⟨gpuStmts_keys_nodup k g, ih (k + 1), ?_⟩
    intro key h1 h2
    rw [List.mem_filterMap] at h1 h2
    obtain ⟨s1, hs1, hk1⟩ := h1
    obtain ⟨s2, hs2, hk2⟩ := h2
    obtain ⟨vec1, rest1, e1, _⟩ := gpuStmts_key k g s1 hs1
    obtain ⟨vec2, j, rest2, hj, e2, _⟩ := rangeStmts_key gpus (k + 1) s2 hs2
    rw [e1] at hk1
    rw [e2] at hk2
    have := hk1.trans hk2.symm
    simp only [Option.some.injEq, Prod.mk.injEq, List.cons.injEq] at this
    have := Itoa_injective k j this.2.1
    omega

theorem mem_rangeStmts (gpus : List GPU) : ∀ (k n : Nat) (g : GPU) (s : Stmt),
    gpus[n]? = some g → s ∈ gpuStmts (k + n) g → s ∈ rangeStmts k gpus := by
  induction gpus with
  | nil => intro k n g s h; simp at h
  | cons g0 gpus ih =>
    intro k n g s h hs
    simp only [rangeStmts, List.mem_append]
    cases n with
    | zero =>
      simp only [List.getElem?_cons_zero, Option.some.injEq] at h
      subst h
      left
      simpa using hs
    | succ n =>
      right
      simp only [List.getElem?_cons_succ] at h
      apply ih (k + 1) n g s h
      have : k + 1 + n = k + (n + 1) := by omega
      rw [this]
      exact hs

theorem writtenKeys_nodup (xmlData : NvidiaSmiLog) : (writtenKeys xmlData).Nodup := by
  simp only [writtenKeys, outputStmts, List.filterMap_cons, Stmt.key, List.nodup_cons]
  refine ⟨?_, rangeStmts_keys_nodup xmlData.GPUs 0⟩
  intro h
  rw [List.mem_filterMap] at h
  obtain ⟨s, hs, hk⟩ := h
  obtain ⟨vec, j, rest, _, e, hne⟩ := rangeStmts_key xmlData.GPUs 0 s hs
  rw [e] at hk
  simp only [Option.some.injEq, Prod.mk.injEq] at hk
  exact hne hk.1

theorem mem_outputStmts (xmlData : NvidiaSmiLog) (i : Nat) (g : GPU) (s : Stmt)
    (h : xmlData.GPUs[i]? = some g) (hs : s ∈ gpuStmts i g) : s ∈ outputStmts xmlData := by
  simp only [outputStmts, List.mem_cons]
  right
  right
  apply mem_rangeStmts xmlData.GPUs 0 i g s h
  simpa using hs

/-- What a completed poll cycle leaves in the plain gauge. -/
theorem applySnapshot_count (reg reg1 : Registry) (xmlData : NvidiaSmiLog)
    (h : applySnapshot reg xmlData = .ok reg1) :
    filterNumber xmlData.AttachedGPUs = .ok reg1.nvidia_device_count := by
  unfold applySnapshot outputStmts at h
  obtain ⟨r1, h1, h2⟩ := runStmts_cons_ok _ _ _ _ h
  obtain ⟨r2, h3, h4⟩ := runStmts_cons_ok _ _ _ _ h2
  have hc := runStmts_count _ r2 reg1 h4 (by
    intro s hs
    obtain ⟨vec, j, rest, _, e, _⟩ := rangeStmts_key xmlData.GPUs 0 s hs
    rw [e]
    simp)
  rcases Stmt.run_ok r1 r2 _ h3 with ⟨vec, labels, v, hs, _⟩ | ⟨v, hs, hr⟩
  · simp at hs
  · simp only [Stmt.countSet.injEq] at hs
    rw [hc, hr, hs]

/-- What a completed poll cycle leaves in a child it writes. -/
theorem applySnapshot_find (reg reg1 : Registry) (xmlData : NvidiaSmiLog)
    (vec : GaugeVec) (labels : List String) (v : Float64)
    (h : applySnapshot reg xmlData = .ok reg1)
    (hs : Stmt.vecSet vec labels (.ok v) ∈ outputStmts xmlData) :
    reg1.find (vec, labels) = some v :=
  runStmts_find_written _ reg reg1 vec labels v h (writtenKeys_nodup xmlData) hs

theorem applySnapshot_field (reg reg1 : Registry) (xmlData : NvidiaSmiLog)
    (i : Nat) (g : GPU) (f : Field)
    (h : applySnapshot reg xmlData = .ok reg1) (hg : xmlData.GPUs[i]? = some g) :
    ∃ v, filterNumber (f.get g) = .ok v ∧ reg1.find (f.vec, [Itoa i]) = some v := by
  have hm := mem_outputStmts xmlData i g _ hg (field_mem_gpuStmts i g f)
  obtain ⟨v, hv⟩ := runStmts_values_ok _ reg reg1 h _ hm
  simp only [Stmt.value] at hv
  refine ⟨v, hv, ?_⟩
  rw [hv] at hm
  exact applySnapshot_find reg reg1 xmlData _ _ v h hm

/-! ## Lemmas: replacing one field -/

theorem filterNumber_empty : filterNumber "" = .ok (-1) := by decide

theorem Stmt.subst_of_key_ne (k : Key) (v : Except NumError Float64) (s : Stmt)
    (h : s.key ≠ some k) : s.subst k v = s := by
  cases s with
  | vecSet vec labels value =>
    have hne : ¬ (vec, labels) = k := fun he => h (by rw [Stmt.key, he])
    simp only [Stmt.subst, if_neg hne]
  | countSet value => rfl

theorem Stmt.key_subst (k : Key) (v : Except NumError Float64) (s : Stmt) :
    (s.subst k v).key = s.key := by
  cases s with
  | vecSet vec labels value =>
    by_cases h : (vec, labels) = k
    · simp only [Stmt.subst, if_pos h, Stmt.key]
    · simp only [Stmt.subst, if_neg h, Stmt.key]
  | countSet value => rfl

theorem gpuStmts_set (i : Nat) (g : GPU) (f : Field) :
    gpuStmts i (f.set g "")
      = (gpuStmts i g).map (Stmt.subst (f.vec, [Itoa i]) (.ok (-1))) := by
  cases f <;> simp [gpuStmts, Field.set, Field.vec, Stmt.subst, filterNumber_empty]

theorem gpuStmts_subst_other (i j : Nat) (g : GPU) (f : Field)
    (v : Except NumError Float64) (h : i ≠ j) :
    (gpuStmts j g).map (Stmt.subst (f.vec, [Itoa i]) v) = gpuStmts j g := by
  conv_rhs => rw [← List.map_id (gpuStmts j g)]
  apply List.map_congr_left
  intro s hs
  obtain ⟨vec, rest, e, _⟩ := gpuStmts_key j g s hs
  rw [id, Stmt.subst_of_key_ne]
  rw [e]
  intro he
  simp only [Option.some.injEq, Prod.mk.injEq, List.cons.injEq] at he
  exact h (Itoa_injective j i he.2.1).symm

theorem rangeStmts_subst_other (gpus : List GPU) (k i : Nat) (f : Field)
    (v : Except NumError Float64) (h : i < k) :
    (rangeStmts k gpus).map (Stmt.subst (f.vec, [Itoa i]) v) = rangeStmts k gpus := by
  conv_rhs => rw [← List.map_id (rangeStmts k gpus)]
  apply List.map_congr_left
  intro s hs
  obtain ⟨vec, j, rest, hj, e, _⟩ := rangeStmts_key gpus k s hs
  rw [id, Stmt.subst_of_key_ne]
  rw [e]
  intro he
  simp only [Option.some.injEq, Prod.mk.injEq, List.cons.injEq] at he
  have := Itoa_injective j i he.2.1
  omega

theorem rangeStmts_modify (gpus : List GPU) : ∀ (k n : Nat) (f : Field),
    rangeStmts k (gpus.modify (fun g => f.set g "") n)
      = (rangeStmts k gpus).map (Stmt.subst (f.vec, [Itoa (k + n)]) (.ok (-1))) := by
  induction gpus with
  | nil => intro k n f; simp [rangeStmts]
  | cons g gpus ih =>
    intro k n f
    cases n with
    | zero =>
      simp only [List.modify_zero_cons, rangeStmts, List.map_append, Nat.add_zero]
      rw [gpuStmts_set, rangeStmts_subst_other gpus (k + 1) k f _ (Nat.lt_succ_self k)]
    | succ n =>
      rw [List.modify_succ_cons]
      simp only [rangeStmts, List.map_append]
      have hk : k + (n + 1) = k + 1 + n := by omega
      rw [ih (k + 1) n f, hk, gpuStmts_subst_other (k + 1 + n) k g f _ (by omega)]

theorem outputStmts_replaceField (xmlData : NvidiaSmiLog) (i : Nat) (f : Field) :
    outputStmts (replaceField xmlData i f "")
      = (outputStmts xmlData).map (Stmt.subst (f.vec, [Itoa i]) (.ok (-1))) := by
  simp only [outputStmts, replaceField, List.map_cons]
  have h := rangeStmts_modify xmlData.GPUs 0 i f
  rw [Nat.zero_add] at h
  rw [h]
  congr 1
  cases f <;> simp [Stmt.subst, Field.vec]

theorem Agree.put (k0 k : Key) (ra rb : Registry) (va vb : Float64)
    (h : Agree k0 ra rb) (hv : k ≠ k0 → va = vb) :
    Agree k0 ((ra.With k).Set k va) ((rb.With k).Set k vb) := by
  obtain ⟨h1, h2, h3⟩ := h
  refine ⟨?_, ?_, ?_⟩
  · rw [count_put, count_put, h1]
  · rw [keys_put, keys_put, h2]
  · intro x hx
    by_cases hxk : k = x
    · subst hxk
      rw [find_put_same, find_put_same, hv hx]
    · rw [find_put_other _ _ _ _ hxk, find_put_other _ _ _ _ hxk]
      exact h3 x hx

theorem runStmts_subst (k0 : Key) (v0 : Float64) (ss : List Stmt) :
    ∀ (ra rb r1 : Registry), Agree k0 ra rb → runStmts ra ss = .ok r1 →
      ∃ r2, runStmts rb (ss.map (Stmt.subst k0 (.ok v0))) = .ok r2 ∧ Agree k0 r1 r2 := by
  induction ss with
  | nil =>
    intro ra rb r1 hA h
    simp only [runStmts, Except.ok.injEq] at h
    subst h
    exact ⟨rb, rfl, hA⟩
  | cons s ss ih =>
    intro ra rb r1 hA h
    obtain ⟨ra1, h1, h2⟩ := runStmts_cons_ok ra r1 s ss h
    rcases Stmt.run_ok ra ra1 s h1 with ⟨vec, labels, v, hs, hr⟩ | ⟨v, hs, hr⟩
    · subst hs hr
      by_cases hk : (vec, labels) = k0
      · obtain ⟨r2, h3, h4⟩ := ih _ ((rb.With (vec, labels)).Set (vec, labels) v0) r1
          (Agree.put k0 (vec, labels) ra rb v v0 hA (fun hne => absurd hk hne)) h2
        refine ⟨r2, ?_, h4⟩
        simp only [List.map_cons, Stmt.subst, if_pos hk, runStmts, Stmt.run]
        exact h3
      · obtain ⟨r2, h3, h4⟩ := ih _ ((rb.With (vec, labels)).Set (vec, labels) v) r1
          (Agree.put k0 (vec, labels) ra rb v v hA (fun _ => rfl)) h2
        refine ⟨r2, ?_, h4⟩
        simp only [List.map_cons, Stmt.subst, if_neg hk, runStmts, Stmt.run]
        exact h3
    · subst hs hr
      obtain ⟨r2, h3, h4⟩ := ih { ra with nvidia_device_count := v }
        { rb with nvidia_device_count := v } r1 ⟨rfl, hA.2.1, hA.2.2⟩ h2
      refine ⟨r2, ?_, h4⟩
      simp only [List.map_cons, Stmt.subst, runStmts, Stmt.run]
      exact h3

theorem Agree.refl (k0 : Key) (reg : Registry) : Agree k0 reg reg :=
  ⟨rfl, rfl, fun _ _ => rfl⟩

/-! ## Lemmas: the collector loop -/

theorem run_stopped (testMode : String) (reg : Registry) (polls : Nat) (envs : List Cycle) :
    run testMode (.stopped reg polls) envs = .stopped reg polls := by
  induction envs with
  | nil => rfl
  | cons env envs ih => simpa [run, step] using ih

theorem run_exited (testMode : String) (envs : List Cycle) :
    run testMode .exited envs = .exited := by
  induction envs with
  | nil => rfl
  | cons env envs ih => simpa [run, step] using ih

theorem step_running_ok (testMode : String) (reg reg1 : Registry) (polls : Nat) (env : Cycle)
    (h1 : ¬ (testMode = "1" ∧ env.getwdErr = true)) (h2 : env.cmdErr = false)
    (h3 : applySnapshot reg env.xmlData = .ok reg1) :
    step testMode (.running reg polls) env = .running reg1 (polls + 1) := by
  simp only [step, if_neg h1, h2, Bool.false_eq_true, if_false, h3]

theorem step_registry (testMode : String) (c : Collector) (env : Cycle) (reg reg1 : Registry)
    (hc : c.registry = some reg) (h : (step testMode c env).registry = some reg1) :
    reg1 = reg ∨ applySnapshot reg env.xmlData = .ok reg1 := by
  cases c with
  | running r polls =>
    simp only [Collector.registry, Option.some.injEq] at hc
    subst hc
    simp only [step] at h
    split at h
    · simp [Collector.registry] at h
    · split at h
      · simp only [Collector.registry, Option.some.injEq] at h
        exact Or.inl h.symm
      · split at h
        · simp [Collector.registry] at h
        · rename_i r1 hr
          simp only [Collector.registry, Option.some.injEq] at h
          right
          rw [← h]
          exact hr
  | stopped r polls =>
    simp only [Collector.registry, Option.some.injEq] at hc
    subst hc
    simp only [step, Collector.registry, Option.some.injEq] at h
    exact Or.inl h.symm
  | exited => simp [Collector.registry] at hc

theorem run_registry_nodup (testMode : String) (envs : List Cycle) :
    ∀ (c : Collector) (r r1 : Registry), c.registry = some r → r.keys.Nodup →
      (run testMode c envs).registry = some r1 → r1.keys.Nodup := by
  induction envs with
  | nil =>
    intro c r r1 hc hn h
    simp only [run] at h
    rw [hc] at h
    cases h
    exact hn
  | cons env envs ih =>
    intro c r r1 hc hn h
    simp only [run] at h
    cases hs : (step testMode c env).registry with
    | none =>
      have : step testMode c env = .exited := by
        cases hstep : step testMode c env <;> simp [hstep, Collector.registry] at hs
        rfl
      rw [this, run_exited] at h
      simp [Collector.registry] at h
    | some r2 =>
      apply ih (step testMode c env) r2 r1 hs _ h
      rcases step_registry testMode c env r r2 hc hs with h1 | h1
      · rw [h1]
        exact hn
      · exact runStmts_nodup _ r r2 h1 hn

theorem run_registry_keeps (testMode : String) (envs : List Cycle) :
    ∀ (c : Collector) (r r1 : Registry), c.registry = some r →
      (run testMode c envs).registry = some r1 → ∀ k ∈ r.keys, k ∈ r1.keys := by
  induction envs with
  | nil =>
    intro c r r1 hc h k hk
    simp only [run] at h
    rw [hc] at h
    cases h
    exact hk
  | cons env envs ih =>
    intro c r r1 hc h k hk
    simp only [run] at h
    cases hs : (step testMode c env).registry with
    | none =>
      have : step testMode c env = .exited := by
        cases hstep : step testMode c env <;> simp [hstep, Collector.registry] at hs
        rfl
      rw [this, run_exited] at h
      simp [Collector.registry] at h
    | some r2 =>
      apply ih (step testMode c env) r2 r1 hs h k
      rcases step_registry testMode c env r r2 hc hs with h1 | h1
      · rw [h1]
        exact hk
      · exact (runStmts_mem_keys _ r r2 k h1).2 (Or.inl hk)

/-! ## The sanitizer -/

theorem readFloatLoop_no_digits (cs : List Char) : ∀ st : FloatScan,
    (∀ c ∈ cs, c.isDigit = false) → (readFloatLoop st cs).1.sawdigits = st.sawdigits := by
  induction cs with
  | nil => intro st _; rfl
  | cons c cs ih =>
    intro st h
    have hc : c.isDigit = false := h c (List.mem_cons_self _ _)
    have hrange : ¬ ('0' ≤ c ∧ c ≤ '9') := fun hr => by
      rw [(isDigit_iff c).2 hr] at hc
      exact Bool.noConfusion hc
    have h1 : ∀ c ∈ cs, c.isDigit = false := fun x hx => h x (List.mem_cons_of_mem _ hx)
    by_cases hd : c = '.'
    · subst hd
      cases hs : st.sawdot
      · rw [readFloatLoop_dot st cs hs, ih _ h1]
      · simp [readFloatLoop, hs]
    · rw [readFloatLoop, if_neg hd, if_neg hrange]

theorem filterNumber_only_dots (s : String) (hd : ∀ c ∈ s.data, c.isDigit = false)
    (hdot : '.' ∈ s.data) : filterNumber s = .error .ErrSyntax := by
  have hmem : '.' ∈ ReplaceAllString s.data := by
    rw [ReplaceAllString_eq_filter, List.mem_filter]
    exact ⟨hdot, by decide⟩
  have hne : ReplaceAllString s.data ≠ [] := List.ne_nil_of_mem hmem
  have hnd : ∀ c ∈ ReplaceAllString s.data, c.isDigit = false := by
    intro c hc
    rw [ReplaceAllString_eq_filter, List.mem_filter] at hc
    exact hd c hc.1
  have := readFloatLoop_no_digits (ReplaceAllString s.data) ⟨0, 0, 0, false, false⟩ hnd
  rw [filterNumber_def, if_neg hne]
  unfold ParseFloat
  simp only [this, Bool.not_false, if_true]

/-- C1 (as amended). For every token with at least one digit and at most one decimal
point, `filterNumber` is decided by the number obtained by deleting every character
that is not a digit or `.` (order kept) and parsing the remainder as a floating-point
number: it returns exactly that binary64 value when there is one, and ends in the fatal
branch with `ErrRange` when the value is beyond the `float64` range. `45 %` gives 45 and
`250.50 W` gives 250.50. -/
theorem filterNumber_strips_and_parses :
    (∀ s : String, (∃ c ∈ s.data, c.isDigit = true) → s.data.count '.' ≤ 1 →
      filterNumber s =
        match parseDecimal (stripDecoration s) with
        | some f => .ok f
        | none => .error .ErrRange) ∧
    filterNumber "45 %" = .ok 45 ∧ filterNumber "250.50 W" = .ok 250.50 := by
  refine ⟨?_, by decide, ?_⟩
  · intro s hdig hdot
    cases hp : parseDecimal (stripDecoration s) with
    | some f => exact filterNumber_numeral s f hdig hdot hp
    | none =>
      obtain ⟨c, hc, hcd⟩ := hdig
      have hmem : c ∈ ReplaceAllString s.data := by
        rw [ReplaceAllString_eq_filter, List.mem_filter]
        exact ⟨hc, by simp [hcd]⟩
      rw [filterNumber_def, if_neg (List.ne_nil_of_mem hmem),
        ParseFloat_numeral (String.mk (ReplaceAllString s.data)) (ReplaceAllString_numeric s.data)
          (by rw [count_dot_ReplaceAllString]; exact hdot) ⟨c, hmem, hcd⟩]
      simp only
      rw [ReplaceAllString_eq_filter s.data]
      unfold stripDecoration at hp
      rw [hp]
  · rw [show (250.50 : ℚ) = mkRat 501 2 by norm_num]
    decide

/-- C1, at the token `45 %`: one digit at least, no decimal point, and the stripped
remainder `45` parses to 45, which is what `filterNumber` returns. -/
theorem filterNumber_strips_and_parses_witness :
    (∃ c ∈ "45 %".data, c.isDigit = true) ∧ "45 %".data.count '.' ≤ 1 ∧
      parseDecimal (stripDecoration "45 %") = some 45 ∧ filterNumber "45 %" = .ok 45 := by
  have hdig : ∃ c ∈ "45 %".data, c.isDigit = true := ⟨'4', by decide, by decide⟩
  have hdot : "45 %".data.count '.' ≤ 1 := by decide
  have hp : parseDecimal (stripDecoration "45 %") = some 45 := by decide
  have h := filterNumber_strips_and_parses.1 "45 %" hdig hdot
  rw [hp] at h
  exact ⟨hdig, hdot, hp, h⟩

set_option maxRecDepth 100000 in
set_option exponentiation.threshold 2000 in
/-- C1, as stated, fails at the token `1` followed by 309 zeros: it is made of digits
only, and `filterNumber` does not return a number on it but ends in the fatal branch,
since `10 ^ 309` is beyond the `float64` range. -/
theorem filterNumber_overflow_fatal :
    overflowToken.data.all Char.isDigit = true ∧ overflowToken.data.count '.' = 0 ∧
      filterNumber overflowToken = .error .ErrRange := by
  refine ⟨by decide, by decide, by decide⟩

/-- C2 (as amended). For the empty token and for every token that contains no digit
and no decimal point (`N/A`, `%`), `filterNumber` returns the sentinel -1 and does not
fail; a token with a decimal point and no digit is fatal. -/
theorem filterNumber_sentinel_without_numeric :
    (∀ s : String, (∀ c ∈ s.data, c.isDigit = false ∧ c ≠ '.') → filterNumber s = .ok (-1)) ∧
    filterNumber "" = .ok (-1) ∧ filterNumber "N/A" = .ok (-1) ∧ filterNumber "%" = .ok (-1) ∧
    (∀ s : String, (∀ c ∈ s.data, c.isDigit = false) → '.' ∈ s.data →
      filterNumber s = .error .ErrSyntax) :=
  ⟨filterNumber_sentinel, by decide, by decide, by decide, filterNumber_only_dots⟩

/-- C2, at the token `N/A`: no digit, no decimal point, and the result is -1. -/
theorem filterNumber_sentinel_without_numeric_witness :
    "N/A".data.all (fun c => !c.isDigit && c != '.') = true ∧ filterNumber "N/A" = .ok (-1) :=
  ⟨by decide, filterNumber_sentinel_without_numeric.1 "N/A" (by decide)⟩

/-- C2, as stated, fails at the token `.`: it contains no digit, and `filterNumber`
does not return the sentinel on it but ends in the fatal branch. -/
theorem filterNumber_lone_dot_fatal :
    ".".data.all (fun c => !c.isDigit) = true ∧ filterNumber "." = .error .ErrSyntax :=
  ⟨by decide, by decide⟩

/-- C8. `filterNumber` ends in the fatal branch whenever the stripped remainder is not
empty and `ParseFloat` rejects it; every token with two or more decimal points
(`1.2.3`) is fatal; and a fatal token in any telemetry field of any device ends the poll
cycle, and with it the process, whatever the registry held. -/
theorem filterNumber_fatal_aborts :
    (∀ (s : String) (e : NumError), ReplaceAllString s.data ≠ [] →
      ParseFloat (String.mk (ReplaceAllString s.data)) = .error e →
      filterNumber s = .error e) ∧
    (∀ s : String, 2 ≤ s.data.count '.' → filterNumber s = .error .ErrSyntax) ∧
    filterNumber "1.2.3" = .error .ErrSyntax ∧
    (∀ (testMode : String) (reg : Registry) (polls : Nat) (env : Cycle) (i : Nat) (g : GPU)
      (f : Field) (e : NumError),
      ¬ (testMode = "1" ∧ env.getwdErr = true) → env.cmdErr = false →
      env.xmlData.GPUs[i]? = some g → filterNumber (f.get g) = .error e →
      (∃ e1, applySnapshot reg env.xmlData = .error e1) ∧
        step testMode (.running reg polls) env = .exited) := by
  refine ⟨?_, filterNumber_two_dots, by decide, ?_⟩
  · intro s e hne hp
    rw [filterNumber_def, if_neg hne, hp]
  · intro testMode reg polls env i g f e h1 h2 hg hf
    have hm := mem_outputStmts env.xmlData i g _ hg (field_mem_gpuStmts i g f)
    obtain ⟨e1, he1⟩ := runStmts_error_of_mem (outputStmts env.xmlData) reg _ e hm
      (by simpa [Stmt.value] using hf)
    refine ⟨⟨e1, he1⟩, ?_⟩
    simp only [step, if_neg h1, h2, Bool.false_eq_true, if_false]
    unfold applySnapshot
    rw [he1]

set_option maxRecDepth 100000 in
/-- C8, at a document whose only device has the fan speed `1.2.3`: the token has two
decimal points, `filterNumber` is fatal on it and the cycle ends the process. -/
theorem filterNumber_fatal_aborts_witness :
    2 ≤ "1.2.3".data.count '.' ∧ filterNumber "1.2.3" = .error .ErrSyntax ∧
      step "" (.running Registry.init 0) twoDotsCycle = .exited := by
  have h2 : 2 ≤ "1.2.3".data.count '.' := by decide
  have hf := filterNumber_fatal_aborts.2.1 "1.2.3" h2
  exact ⟨h2, hf,
    (filterNumber_fatal_aborts.2.2.2 "" Registry.init 0 twoDotsCycle 0
      { GPU.zero with FanSpeed := "1.2.3" } Field.FanSpeed NumError.ErrSyntax
      (by decide) rfl rfl hf).2⟩

/-- C10. Whenever `filterNumber` returns, the result is the sentinel -1 or a
non-negative number, and it is -1 exactly when the token contains no digit and no
decimal point. Signs are decoration: `-5` gives 5 and `-1` gives 1. The result on a
token is the result on the token with all characters other than digits and `.`
removed. -/
theorem filterNumber_result_range :
    (∀ (s : String) (v : Float64), filterNumber s = .ok v →
      (v = -1 ∨ 0 ≤ v) ∧ (v = -1 ↔ ∀ c ∈ s.data, c.isDigit = false ∧ c ≠ '.')) ∧
    filterNumber "-5" = .ok 5 ∧ filterNumber "-1" = .ok 1 ∧
    (∀ s : String, filterNumber s = filterNumber (String.mk (stripDecoration s))) := by
  refine ⟨?_, by decide, by decide, ?_⟩
  · intro s v h
    rcases filterNumber_ok_cases s v h with ⟨he, hv⟩ | ⟨hne, hv⟩
    · exact ⟨Or.inl hv, fun _ => (ReplaceAllString_eq_nil s.data).1 he, fun _ => hv⟩
    · refine ⟨Or.inr hv, ?_, ?_⟩
      · intro h1
        rw [h1] at hv
        exact absurd hv (by norm_num)
      · intro h1
        exact absurd ((ReplaceAllString_eq_nil s.data).2 h1) hne
  · intro s
    have : stripDecoration s = ReplaceAllString s.data := (ReplaceAllString_eq_filter s.data).symm
    rw [this, filterNumber_strip]

/-- C10, at the token `-5`: `filterNumber` returns 5, which is non-negative and not the
sentinel, and the token has a digit. -/
theorem filterNumber_result_range_witness :
    filterNumber "-5" = .ok 5 ∧ ((5 : Float64) = -1 ∨ (0 : Float64) ≤ 5) ∧
      ((5 : Float64) = -1 ↔ ∀ c ∈ "-5".data, c.isDigit = false ∧ c ≠ '.') :=
  ⟨by decide, filterNumber_result_range.1 "-5" 5 (by decide)⟩

/-! ## The poll cycle and the registry -/

theorem step_running_inv (testMode : String) (reg reg1 : Registry) (polls p1 : Nat)
    (env : Cycle) (h : step testMode (.running reg polls) env = .running reg1 p1) :
    applySnapshot reg env.xmlData = .ok reg1 ∧ p1 = polls + 1 := by
  simp only [step] at h
  split at h
  · cases h
  · split at h
    · cases h
    · split at h
      · cases h
      · rename_i r hr
        cases h
        exact ⟨hr, rfl⟩

/-- C3. After a successful poll cycle on a document with driver version `V`,
attached-GPU text `A` and device blocks `GPUs`, the registry holds
`driver_info{version=V} = 1` and `device_count = filterNumber(A)`, and for every
position `i` of a device and each of the 20 per-device series an entry labelled with
the decimal string of `i`: the value is `filterNumber` of the field of the i-th device
for the 19 telemetry series and the constant 1 for `info{minor,uuid,productName}`.
These 20 series and `driver_info` are all the gauge vectors there are. -/
theorem poll_cycle_fills_registry (testMode : String) (reg reg1 : Registry) (polls p1 : Nat)
    (env : Cycle) (h : step testMode (.running reg polls) env = .running reg1 p1) :
    reg1.find (.nvidia_driver_info, [env.xmlData.DriverVersion]) = some 1 ∧
    filterNumber env.xmlData.AttachedGPUs = .ok reg1.nvidia_device_count ∧
    (∀ (i : Nat) (g : GPU), env.xmlData.GPUs[i]? = some g →
      reg1.find (.nvidia_info, [Itoa i, g.UUID, g.ProductName]) = some 1 ∧
      ∀ f : Field, ∃ v, filterNumber (f.get g) = .ok v ∧ reg1.find (f.vec, [Itoa i]) = some v) ∧
    (∀ vec : GaugeVec, vec = .nvidia_driver_info ∨ vec = .nvidia_info ∨
      ∃ f : Field, f.vec = vec) ∧
    (∀ f1 f2 : Field, f1.vec = f2.vec → f1 = f2) := by
  obtain ⟨ha, _⟩ := step_running_inv testMode reg reg1 polls p1 env h
  refine ⟨?_, applySnapshot_count reg reg1 env.xmlData ha, ?_, ?_, ?_⟩
  · exact applySnapshot_find reg reg1 env.xmlData _ _ 1 ha (by simp [outputStmts])
  · intro i g hg
    refine ⟨?_, fun f => applySnapshot_field reg reg1 env.xmlData i g f ha hg⟩
    exact applySnapshot_find reg reg1 env.xmlData _ _ 1 ha
      (mem_outputStmts env.xmlData i g _ hg (info_mem_gpuStmts i g))
  · intro vec
    cases vec
    · exact Or.inl rfl
    · exact Or.inr (Or.inr ⟨.FanSpeed, rfl⟩)
    · exact Or.inr (Or.inl rfl)
    · exact Or.inr (Or.inr ⟨.MemoryTotal, rfl⟩)
    · exact Or.inr (Or.inr ⟨.MemoryUsed, rfl⟩)
    · exact Or.inr (Or.inr ⟨.MemoryFree, rfl⟩)
    · exact Or.inr (Or.inr ⟨.GPUUtil, rfl⟩)
    · exact Or.inr (Or.inr ⟨.MemoryUtil, rfl⟩)
    · exact Or.inr (Or.inr ⟨.GPUTemp, rfl⟩)
    · exact Or.inr (Or.inr ⟨.GPUTempMaxThreshold, rfl⟩)
    · exact Or.inr (Or.inr ⟨.GPUTempSlowThreshold, rfl⟩)
    · exact Or.inr (Or.inr ⟨.PowerDraw, rfl⟩)
    · exact Or.inr (Or.inr ⟨.PowerLimit, rfl⟩)
    · exact Or.inr (Or.inr ⟨.GraphicsClock, rfl⟩)
    · exact Or.inr (Or.inr ⟨.MaxGraphicsClock, rfl⟩)
    · exact Or.inr (Or.inr ⟨.SmClock, rfl⟩)
    · exact Or.inr (Or.inr ⟨.MaxSmClock, rfl⟩)
    · exact Or.inr (Or.inr ⟨.MemClock, rfl⟩)
    · exact Or.inr (Or.inr ⟨.MaxMemClock, rfl⟩)
    · exact Or.inr (Or.inr ⟨.VideoClock, rfl⟩)
    · exact Or.inr (Or.inr ⟨.MaxVideoClock, rfl⟩)
  · intro f1 f2 hv
    cases f1 <;> cases f2 <;> first | rfl | exact absurd hv (by decide)

set_option maxRecDepth 100000 in
/-- C3, the end-to-end scenario: version `535.104.05`, attached_gpus `2`, fan speeds
`45 %` and `N/A`. One cycle from the empty registry succeeds and leaves
`driver_info{version="535.104.05"} = 1`, `device_count = 2`, `fanspeed{minor="0"} = 45`
and `fanspeed{minor="1"} = -1`. -/
theorem poll_cycle_fills_registry_witness :
    ∃ reg1, step "1" (.running Registry.init 0) fixtureCycle = .running reg1 1 ∧
      reg1.find (.nvidia_driver_info, ["535.104.05"]) = some 1 ∧
      reg1.nvidia_device_count = 2 ∧
      reg1.find (.nvidia_fanspeed, ["0"]) = some 45 ∧
      reg1.find (.nvidia_fanspeed, ["1"]) = some (-1) := by
  obtain ⟨reg1, h⟩ : ∃ reg1, step "1" (.running Registry.init 0) fixtureCycle
      = .running reg1 1 := ⟨_, rfl⟩
  obtain ⟨h1, h2, h3, _⟩ := poll_cycle_fills_registry "1" Registry.init reg1 0 1 fixtureCycle h
  refine ⟨reg1, h, h1, ?_, ?_, ?_⟩
  · have h45 : filterNumber fixtureCycle.xmlData.AttachedGPUs = .ok 2 := by decide
    rw [h45] at h2
    exact (Except.ok.inj h2).symm
  · obtain ⟨v, hv, hf⟩ := (h3 0 { GPU.zero with FanSpeed := "45 %" } rfl).2 .FanSpeed
    have h45 : filterNumber (Field.FanSpeed.get { GPU.zero with FanSpeed := "45 %" })
        = .ok 45 := by decide
    rw [h45] at hv
    cases hv
    exact hf
  · obtain ⟨v, hv, hf⟩ := (h3 1 { GPU.zero with FanSpeed := "N/A" } rfl).2 .FanSpeed
    have hna : filterNumber (Field.FanSpeed.get { GPU.zero with FanSpeed := "N/A" })
        = .ok (-1) := by decide
    rw [hna] at hv
    cases hv
    exact hf

/-- C4 (as amended). For every registry state and every document on which the poll
cycle completes (no field is a fatal token), the cycle overwrites the value of every
label combination the document writes, creates an entry only for label combinations not
yet present, and leaves every entry it does not write present with its value: the label
combinations after the cycle are those before it together with those written, and no
combination appears twice. In every state the collector reaches from process start in
which the process still lives no combination appears twice, and along any run that
leaves the process alive no combination is ever removed. -/
theorem poll_cycle_overwrites_and_keeps :
    (∀ (reg reg1 : Registry) (xmlData : NvidiaSmiLog),
      applySnapshot reg xmlData = .ok reg1 → reg.keys.Nodup →
      reg1.keys.Nodup ∧
      (∀ k, k ∈ reg1.keys ↔ k ∈ reg.keys ∨ k ∈ writtenKeys xmlData) ∧
      (∀ k, k ∉ writtenKeys xmlData → reg1.find k = reg.find k) ∧
      (∀ k ∈ writtenKeys xmlData, ∃ v,
        Stmt.vecSet k.1 k.2 (.ok v) ∈ outputStmts xmlData ∧ reg1.find k = some v)) ∧
    (∀ (testMode : String) (envs : List Cycle) (r : Registry),
      (run testMode (.running Registry.init 0) envs).registry = some r → r.keys.Nodup) ∧
    (∀ (testMode : String) (c : Collector) (envs : List Cycle) (r r1 : Registry),
      c.registry = some r → (run testMode c envs).registry = some r1 →
      ∀ k ∈ r.keys, k ∈ r1.keys ∧ (r1.find k).isSome = true) := by
  refine ⟨?_, ?_, ?_⟩
  · intro reg reg1 xmlData h hn
    refine ⟨runStmts_nodup _ reg reg1 h hn, fun k => runStmts_mem_keys _ reg reg1 k h,
      fun k hk => runStmts_find_other _ reg reg1 k h hk, ?_⟩
    intro k hk
    unfold writtenKeys at hk
    rw [List.mem_filterMap] at hk
    obtain ⟨s, hs, hkey⟩ := hk
    cases s with
    | countSet value => simp [Stmt.key] at hkey
    | vecSet vec labels value =>
      simp only [Stmt.key, Option.some.injEq] at hkey
      subst hkey
      obtain ⟨v, hv⟩ := runStmts_values_ok _ reg reg1 h _ hs
      simp only [Stmt.value] at hv
      subst hv
      exact ⟨v, hs, applySnapshot_find reg reg1 xmlData vec labels v h hs⟩
  · intro testMode envs r h
    exact run_registry_nodup testMode envs (.running Registry.init 0) Registry.init r rfl
      List.nodup_nil h
  · intro testMode c envs r r1 hc h k hk
    have := run_registry_keeps testMode envs c r r1 hc h k hk
    exact ⟨this, (find_isSome_iff r1 k).2 this⟩

set_option maxRecDepth 100000 in
/-- C4, on the fixture applied to a registry that already holds a child of a device
that has since disappeared (`fanspeed{minor="7"} = 30`): the stale child is still there
with its value, and no combination appears twice. -/
theorem poll_cycle_overwrites_and_keeps_witness :
    ∃ reg1, applySnapshot ⟨0, [((.nvidia_fanspeed, ["7"]), 30)]⟩ fixture = .ok reg1 ∧
      reg1.keys.Nodup ∧ reg1.find (.nvidia_fanspeed, ["7"]) = some 30 := by
  obtain ⟨reg1, h⟩ : ∃ reg1, applySnapshot ⟨0, [((.nvidia_fanspeed, ["7"]), 30)]⟩ fixture
      = .ok reg1 := ⟨_, rfl⟩
  obtain ⟨h1, _, h3, _⟩ := poll_cycle_overwrites_and_keeps.1 _ reg1 fixture h (by decide)
  exact ⟨reg1, h, h1, by rw [h3 _ (by decide)]; rfl⟩

set_option maxRecDepth 100000 in
/-- C4, as stated, fails at the registry `fanspeed{minor="7"} = 30` and a document
whose only device has the fan speed `1.2.3`: the poll cycle is fatal on that token, the
process ends, and no registry is left in which the old entry could still be present. -/
theorem poll_cycle_fatal_drops_registry :
    staleRegistry.find (.nvidia_fanspeed, ["7"]) = some 30 ∧
    applySnapshot staleRegistry twoDotsLog = .error .ErrSyntax ∧
    step "" (.running staleRegistry 0) twoDotsCycle = .exited ∧
    (step "" (.running staleRegistry 0) twoDotsCycle).registry = none := by
  refine ⟨by decide, by decide, by decide, by decide⟩

/-- C5. When the data-source invocation fails in a poll cycle, the cycle writes nothing
and the collector stops for good: in every later state the registry is the one from
before the failure and the number of polls started no longer grows. -/
theorem invocation_failure_stops_collector (testMode : String) (reg : Registry) (polls : Nat)
    (env : Cycle) (later : List Cycle)
    (hwd : ¬ (testMode = "1" ∧ env.getwdErr = true)) (hcmd : env.cmdErr = true) :
    step testMode (.running reg polls) env = .stopped reg (polls + 1) ∧
    run testMode (step testMode (.running reg polls) env) later = .stopped reg (polls + 1) ∧
    (run testMode (step testMode (.running reg polls) env) later).registry = some reg ∧
    (run testMode (step testMode (.running reg polls) env) later).polls = some (polls + 1) := by
  have h : step testMode (.running reg polls) env = .stopped reg (polls + 1) := by
    simp only [step, if_neg hwd, hcmd, if_true]
  refine ⟨h, ?_, ?_, ?_⟩ <;> rw [h, run_stopped] <;> rfl

set_option maxRecDepth 100000 in
/-- C5, from the registry the fixture leaves: a failing invocation followed by two
cycles that would have succeeded leaves that registry as it was. -/
theorem invocation_failure_stops_collector_witness :
    ∃ reg, step "" (.running Registry.init 0) fixtureCycle = .running reg 1 ∧
      run "" (.running reg 1) [failedCycle, fixtureCycle, garbageCycle] = .stopped reg 2 := by
  obtain ⟨reg, h⟩ : ∃ reg, step "" (.running Registry.init 0) fixtureCycle
      = .running reg 1 := ⟨_, rfl⟩
  exact ⟨reg, h,
    (invocation_failure_stops_collector "" reg 1 failedCycle [fixtureCycle, garbageCycle]
      (by decide) rfl).2.1⟩

/-- C6, in the code: with `LISTEN_ADDRESS=:8080` in the environment, `main` stores and
logs `:8080` as the listen address and then gives `:9202` to `http.ListenAndServe`;
whatever the environment, the address served is the constant. -/
theorem main_serves_constant_address :
    (main overrideEnv).listenAddress = ":8080" ∧
    (main overrideEnv).logged = ["Nvidia SMI exporter listening on :8080"] ∧
    (main overrideEnv).served = ":9202" ∧
    (∀ getenv : String → String, (main getenv).served = ":9202") :=
  ⟨by decide, by decide, by decide, fun _ => rfl⟩

/-- C7 (as amended). For every document on which the poll cycle completes and every
device in it, replacing one telemetry field of that device by the empty string gives a
cycle that completes too and differs from the first in that one (series, minor) entry
only, which becomes the sentinel -1: every other entry, the device count and the label
combinations present are the same. -/
theorem replaceField_changes_one_entry (reg r1 : Registry) (xmlData : NvidiaSmiLog)
    (i : Nat) (g : GPU) (f : Field)
    (hg : xmlData.GPUs[i]? = some g) (h : applySnapshot reg xmlData = .ok r1) :
    (replaceField xmlData i f "").GPUs[i]? = some (f.set g "") ∧ f.get (f.set g "") = "" ∧
    ∃ r2, applySnapshot reg (replaceField xmlData i f "") = .ok r2 ∧
      r2.find (f.vec, [Itoa i]) = some (-1) ∧
      (∀ k, k ≠ (f.vec, [Itoa i]) → r2.find k = r1.find k) ∧
      r2.nvidia_device_count = r1.nvidia_device_count ∧ r2.keys = r1.keys := by
  refine ⟨?_, by cases f <;> rfl, ?_⟩
  · simp [replaceField, List.getElem?_modify, hg]
  · have hsub := outputStmts_replaceField xmlData i f
    obtain ⟨r2, h2, hA⟩ := runStmts_subst (f.vec, [Itoa i]) (-1) (outputStmts xmlData)
      reg reg r1 (Agree.refl _ reg) h
    have h2a : applySnapshot reg (replaceField xmlData i f "") = .ok r2 := by
      unfold applySnapshot
      rw [hsub]
      exact h2
    refine ⟨r2, h2a, ?_, fun k hk => (hA.2.2 k hk).symm, hA.1.symm, hA.2.1.symm⟩
    apply applySnapshot_find reg r2 _ _ _ (-1) h2a
    rw [hsub, List.mem_map]
    refine ⟨_, mem_outputStmts xmlData i g _ hg (field_mem_gpuStmts i g f), ?_⟩
    simp only [Stmt.subst, if_true]

set_option maxRecDepth 100000 in
/-- C7, on the fixture: with the fan speed of device 0 removed the cycle still
completes, `fanspeed{minor="0"}` is -1, and `fanspeed{minor="1"}` and the device count
are what they were. -/
theorem replaceField_changes_one_entry_witness :
    ∃ r1 r2, applySnapshot Registry.init fixture = .ok r1 ∧
      applySnapshot Registry.init (replaceField fixture 0 .FanSpeed "") = .ok r2 ∧
      r1.find (.nvidia_fanspeed, ["0"]) = some 45 ∧
      r2.find (.nvidia_fanspeed, ["0"]) = some (-1) ∧
      r2.find (.nvidia_fanspeed, ["1"]) = r1.find (.nvidia_fanspeed, ["1"]) ∧
      r2.nvidia_device_count = r1.nvidia_device_count := by
  obtain ⟨r1, h⟩ : ∃ r1, applySnapshot Registry.init fixture = .ok r1 := ⟨_, rfl⟩
  obtain ⟨_, _, r2, h2, h3, h4, h5, _⟩ := replaceField_changes_one_entry Registry.init r1
    fixture 0 { GPU.zero with FanSpeed := "45 %" } .FanSpeed rfl h
  refine ⟨r1, r2, h, h2, ?_, h3, h4 _ (by decide), h5⟩
  cases h
  decide

set_option maxRecDepth 100000 in
/-- C7, as stated, fails on a document whose only device has the fan speed `1.2.3`:
the poll cycle on it is fatal, so it has no result to compare with, while after the
field is replaced by the empty string the cycle completes and writes its entries. -/
theorem replaceField_after_fatal :
    applySnapshot Registry.init twoDotsLog = .error .ErrSyntax ∧
    ∃ r2, applySnapshot Registry.init (replaceField twoDotsLog 0 .FanSpeed "") = .ok r2 ∧
      r2.find (.nvidia_fanspeed, ["0"]) = some (-1) ∧
      r2.find (.nvidia_memory_total, ["0"]) = some (-1) ∧
      r2.find (.nvidia_info, ["0", "", ""]) = some 1 := by
  refine ⟨by decide, _, rfl, by decide, by decide, by decide⟩

/-- C9. A decode error changes nothing in a poll cycle: the document `xml.Unmarshal`
left behind is applied. When that document has an empty driver version, an empty
attached-GPU text and no device block, the cycle sets `driver_info{version=""} = 1`
and `device_count = -1`, writes nothing else, and the collector goes on to the next
cycle. -/
theorem decode_error_is_ignored :
    (∀ (testMode : String) (c : Collector) (env : Cycle),
      step testMode c { env with decodeErr := true }
        = step testMode c { env with decodeErr := false }) ∧
    (∀ (testMode : String) (reg : Registry) (polls : Nat) (env : Cycle),
      ¬ (testMode = "1" ∧ env.getwdErr = true) → env.cmdErr = false →
      env.xmlData = NvidiaSmiLog.zero →
      ∃ reg1, step testMode (.running reg polls) env = .running reg1 (polls + 1) ∧
        reg1.find (.nvidia_driver_info, [""]) = some 1 ∧
        reg1.nvidia_device_count = -1 ∧
        (∀ k, k ≠ (.nvidia_driver_info, [""]) → reg1.find k = reg.find k) ∧
        (∀ k, k ∈ reg1.keys ↔ k ∈ reg.keys ∨ k = (.nvidia_driver_info, [""]))) := by
  refine ⟨?_, ?_⟩
  · intro testMode c env
    cases c <;> rfl
  · intro testMode reg polls env hwd hcmd hz
    have happ : applySnapshot reg env.xmlData
        = .ok { (reg.With (.nvidia_driver_info, [""])).Set (.nvidia_driver_info, [""]) 1
                with nvidia_device_count := -1 } := by
      rw [hz]
      simp only [applySnapshot, outputStmts, NvidiaSmiLog.zero, rangeStmts, runStmts, Stmt.run,
        filterNumber_empty]
    refine ⟨_, step_running_ok testMode reg _ polls env hwd hcmd happ, ?_, rfl, ?_, ?_⟩
    · exact find_put_same reg _ 1
    · intro k hk
      exact find_put_other reg k _ 1 (fun h => hk h.symm)
    · intro k
      exact mem_keys_put reg k _ 1

set_option maxRecDepth 100000 in
/-- C9, from the registry the fixture leaves: a cycle whose output is not a document
overwrites `device_count` with -1, adds `driver_info{version=""} = 1`, leaves
`fanspeed{minor="0"} = 45` and the collector keeps running. -/
theorem decode_error_is_ignored_witness :
    ∃ reg reg1, step "" (.running Registry.init 0) fixtureCycle = .running reg 1 ∧
      step "" (.running reg 1) garbageCycle = .running reg1 2 ∧
      reg.nvidia_device_count = 2 ∧ reg1.nvidia_device_count = -1 ∧
      reg1.find (.nvidia_driver_info, [""]) = some 1 ∧
      reg1.find (.nvidia_fanspeed, ["0"]) = some 45 := by
  obtain ⟨reg, h⟩ : ∃ reg, step "" (.running Registry.init 0) fixtureCycle
      = .running reg 1 := ⟨_, rfl⟩
  obtain ⟨reg1, h1, h2, h3, h4, _⟩ :=
    decode_error_is_ignored.2 "" reg 1 garbageCycle (by decide) rfl rfl
  refine ⟨reg, reg1, h, h1, ?_, h3, h2, ?_⟩
  · cases h
    decide
  · rw [h4 _ (by decide)]
    cases h
    decide

end NvidiaSmiExporter
